import Mathlib

/-!
Verification development for the 7HR-Roguelike-Competition engine.

The definitions below are a shallow embedding of `src/engine.py` (class `Map`
and its helper dataclasses).  Python's mutable state is passed explicitly:
the 2D tile array `Map.state` is a `List (List Tile)`, grid reads and writes
use Python's list-index semantics (negative indices wrap once, indices out of
`[-len, len)` raise `IndexError`, modelled as `none`), and fallible code
returns `Option`.  Randomness (`random.randint`, `random.random() > .5`) is
modelled by explicit oracle streams: an `Int`-valued stream consumed by
`randint` (values outside the requested interval are clamped to the lower
bound, so every draw lies in the interval exactly as `random.randint`
guarantees, and every in-range sequence of draws is realizable by some
oracle), and a `Bool`-valued stream for the combat coin flips.

The repository imports `entities.py` and `controller.py`, which are not part
of the sources; the entity records and their `attack`/`drop` capabilities are
modelled from the spec where noted.
-/

namespace Roguelike

/-- `Position` dataclass (engine.py lines 8-13); `__eq__` is coordinate
equality, which coincides with structural equality. -/
structure Position where
  x : Int
  y : Int
deriving DecidableEq, Repr

/-- `Size` dataclass (engine.py lines 15-18). -/
structure Size where
  w : Int
  h : Int
deriving DecidableEq, Repr

/-- `Rect` dataclass (engine.py lines 20-32). -/
structure Rect where
  position : Position
  size : Size
deriving DecidableEq, Repr

/-- `Rect.__eq__` (engine.py lines 28-30): equality by position alone. -/
def Rect.eqPy (a b : Rect) : Bool :=
  a.position.x == b.position.x && a.position.y == b.position.y

/-- `Rect.collides` for a single rectangle argument (engine.py lines 36-41). -/
def Rect.collides (a b : Rect) (padding : Int) : Bool :=
  decide (a.position.x - padding < b.position.x + b.size.w) &&
  decide (a.position.x + a.size.w + padding > b.position.x) &&
  decide (a.position.y - padding < b.position.y + b.size.h) &&
  decide (a.position.y + a.size.h + padding > b.position.y)

/-- `Rect.collides` applied to a list (engine.py lines 34-35): `any` of the
single-rectangle checks, each using the default padding 1. -/
def Rect.collidesList (a : Rect) (rs : List Rect) : Bool :=
  rs.any (fun r => Rect.collides a r 1)

/-- `TileType` enum (engine.py lines 53-64). -/
inductive TileType where
  | EMPTY
  | FILL
  | WALL
  | ENEMY
  | KEY
  | GOLD
  | PLAYER
deriving DecidableEq, Repr

/-- PlayerEntity record.  Modelled from the spec: `entities.py` is absent
from the sources; spec section 3 gives `PlayerEntity` the fields health,
strength, key count and gold count (constructed as `PlayerEntity(100,10)`
with keys and gold starting at 0). -/
structure PlayerEntity where
  health : Int
  strength : Int
  keys : Nat
  gold : Int
deriving DecidableEq, Repr

/-- EnemyEntity record.  Modelled from the spec: `entities.py` is absent
from the sources; spec section 3 gives `EnemyEntity` the fields health,
strength, goldDropRange (min,max) and the stolenKey flag (engine.py line 281
constructs `EnemyEntity(10, 10, (2,5))`). -/
structure EnemyEntity where
  health : Int
  strength : Int
  gold_drop_range : Int × Int
  stole_key : Bool
deriving DecidableEq, Repr

/-- Entity payload of a tile: either the player record or an enemy record. -/
inductive Entity where
  | player (p : PlayerEntity)
  | enemy (e : EnemyEntity)
deriving DecidableEq, Repr

/-- `Tile` dataclass (engine.py lines 69-80): a type tag plus an optional
entity payload. -/
structure Tile where
  type : TileType
  entity : Option Entity := none
deriving DecidableEq, Repr

/-- `EmptyTileSingleton` (engine.py line 82). -/
def EmptyTileSingleton : Tile := { type := TileType.EMPTY }

/-- `FillTileSingleton` (engine.py line 83). -/
def FillTileSingleton : Tile := { type := TileType.FILL }

/-- Python list indexing: a negative index wraps once by adding the length;
any index outside `[-len, len)` raises `IndexError` (modelled as `none`). -/
def pyIdx (n : Nat) (i : Int) : Option Nat :=
  if 0 ≤ i then
    (if i < (n : Int) then some i.toNat else none)
  else
    (if 0 ≤ i + (n : Int) then some (i + (n : Int)).toNat else none)

/-- Python list read `l[i]` with wrap-around for negative indices. -/
def pyGet {α : Type} (l : List α) (i : Int) : Option α :=
  (pyIdx l.length i).bind (fun k => l[k]?)

/-- Python list element assignment `l[i] = a` with wrap-around for negative
indices; `IndexError` is `none`. -/
def pySet {α : Type} (l : List α) (i : Int) (a : α) : Option (List α) :=
  (pyIdx l.length i).map (fun k => l.set k a)

/-- The `Map` object state (engine.py lines 85-93): grid size, room
registry and the 2D tile array. -/
structure GameMap where
  size : Size
  rooms : List Rect
  state : List (List Tile)
deriving DecidableEq, Repr

/-- `Map.get_tile_at` (engine.py lines 212-213): `self.state[pos.y][pos.x]`
with Python indexing on both levels. -/
def get_tile_at (m : GameMap) (pos : Position) : Option Tile :=
  (pyGet m.state pos.y).bind (fun row => pyGet row pos.x)

/-- Grid write `self.state[pos.y][pos.x] = t` with Python index semantics. -/
def set_tile (m : GameMap) (pos : Position) (t : Tile) : Option GameMap :=
  (pyGet m.state pos.y).bind (fun row =>
    (pySet row pos.x t).bind (fun row' =>
      (pySet m.state pos.y row').map (fun st => { m with state := st })))

/-- `Map.move_entity` (engine.py lines 215-219): read the destination tile;
only when its type is not PLAYER, copy the source tile into the destination
and reset the source cell to the empty singleton.  Both assignments sit
inside the guard, so a blocked move changes nothing. -/
def move_entity (m : GameMap) (from_position to_position : Position) : Option GameMap :=
  (get_tile_at m to_position).bind (fun to_tile =>
    if to_tile.type ≠ TileType.PLAYER then
      (get_tile_at m from_position).bind (fun from_tile =>
        (set_tile m to_position from_tile).bind (fun m1 =>
          set_tile m1 from_position EmptyTileSingleton))
    else
      some m)

/-- `Map.reset_state` (engine.py lines 91-93): clear the registry, rebuild
the grid as `size.h` rows of `size.w` fill singletons. -/
def reset_state (m : GameMap) : GameMap :=
  { m with
    rooms := []
    state := List.replicate m.size.h.toNat (List.replicate m.size.w.toNat FillTileSingleton) }

/-- `Map._find_tiles` (engine.py lines 186-192): row-major scan over
`range(len(state)) x range(len(state[0]))` collecting the positions whose
tile has the requested type. -/
def find_tiles (m : GameMap) (tile_type : TileType) : List Position :=
  (List.range m.state.length).flatMap (fun y =>
    (List.range (m.state.headD []).length).filterMap (fun x =>
      match m.state[y]?.bind (fun row => row[x]?) with
      | some tile => if tile.type = tile_type then some ⟨(x : Int), (y : Int)⟩ else none
      | none => none))

/-- Model of `random.randint(lo, hi)` driven by an oracle value `r`: the
draw is `r` whenever `r` lies in the inclusive interval, and is clamped to
`lo` otherwise, so that (as `random.randint` guarantees when `lo ≤ hi`)
every draw lies in `[lo, hi]` and every in-range value is realizable. -/
def randint (lo hi r : Int) : Int :=
  if lo ≤ r ∧ r ≤ hi then r else lo

/-- Oracle stream of `randint` draws: the `k`-th call to `random.randint`
reads `r k`. -/
def Rng : Type := Nat → Int

/-- `Map._carve` (engine.py lines 166-168): if the tile at `position` is
FILL, replace it with the empty singleton.  The read raises on an index
outside Python range (`none`). -/
def carve (m : GameMap) (position : Position) : Option GameMap :=
  (get_tile_at m position).bind (fun t =>
    if t.type = TileType.FILL then set_tile m position EmptyTileSingleton
    else some m)

/-- `Map._update_rooms` (engine.py lines 171-176): carve every cell of every
registered room, row by row. -/
def update_rooms (m : GameMap) : Option GameMap :=
  m.rooms.foldlM (fun acc room =>
    (List.range room.size.h.toNat).foldlM (fun acc2 dy =>
      (List.range room.size.w.toNat).foldlM (fun acc3 dx =>
        carve acc3 ⟨room.position.x + (dx : Int), room.position.y + (dy : Int)⟩) acc2) acc) m

/-- `Map._place_room` (engine.py lines 178-184): build the candidate rect;
reject when the registry is nonempty and the candidate collides (padded by
1) with a registered room; otherwise append it and re-carve all rooms.
Returns the updated map and the accept/reject boolean. -/
def place_room (m : GameMap) (position : Position) (size : Size) : Option (GameMap × Bool) :=
  let new_room : Rect := ⟨position, size⟩
  if m.rooms ≠ [] ∧ Rect.collidesList new_room m.rooms then
    some (m, false)
  else
    (update_rooms { m with rooms := m.rooms ++ [new_room] }).map (fun m' => (m', true))

/-- `Map._place_room_randomly` (engine.py lines 207-210): draw a position
with one `randint` per axis inside the outer padding and delegate to
`_place_room` (its boolean result is discarded). -/
def place_room_randomly (m : GameMap) (size : Size) (r : Rng) (k : Nat) :
    Option (GameMap × Nat) :=
  let x := randint 1 (m.size.w - size.w - 1) (r k)
  let y := randint 1 (m.size.h - size.h - 1) (r (k + 1))
  (place_room m ⟨x, y⟩ size).map (fun p => (p.1, k + 2))

/-- `Map.generate_rooms` (engine.py lines 221-224): exactly `n_attempts`
independent random placements, each drawing a width and a height first. -/
def generate_rooms (m : GameMap) (n_attempts : Nat) (width_range height_range : Int × Int)
    (r : Rng) (k : Nat) : Option (GameMap × Nat) :=
  (List.range n_attempts).foldlM (fun acc _ =>
    let w := randint width_range.1 width_range.2 (r acc.2)
    let h := randint height_range.1 height_range.2 (r (acc.2 + 1))
    place_room_randomly acc.1 ⟨w, h⟩ r (acc.2 + 2)) (m, k)

/-- `Map._place_entity` (engine.py lines 195-199): place the tile only when
the current tile equals the empty singleton. -/
def place_entity (m : GameMap) (position : Position) (entity_tile : Tile) :
    Option (GameMap × Bool) :=
  (get_tile_at m position).bind (fun t =>
    if t = EmptyTileSingleton then
      (set_tile m position entity_tile).map (fun m' => (m', true))
    else
      some (m, false))

/-- `Map._place_entity_randomly` (engine.py lines 201-205): up to
`max_attempts` random positions, one `randint` per axis each, stopping at
the first success. -/
def place_entity_randomly (m : GameMap) (entity_tile : Tile) (r : Rng) (k : Nat) :
    Nat → Option (GameMap × Nat × Bool)
  | 0 => some (m, k, false)
  | Nat.succ attempts =>
    let x := randint 0 (m.size.w - 1) (r k)
    let y := randint 0 (m.size.h - 1) (r (k + 1))
    (place_entity m ⟨x, y⟩ entity_tile).bind (fun res =>
      if res.2 then some (res.1, k + 2, true)
      else place_entity_randomly m entity_tile r (k + 2) attempts)

/-- `Map.generate_enemies` (engine.py lines 279-282): place `n` fresh
`EnemyEntity(10, 10, (2,5))` tiles at random empty cells. -/
def generate_enemies (m : GameMap) (n : Nat) (r : Rng) (k : Nat) : Option (GameMap × Nat) :=
  (List.range n).foldlM (fun acc _ =>
    let enemy : EnemyEntity := ⟨10, 10, (2, 5), false⟩
    (place_entity_randomly acc.1 ⟨TileType.ENEMY, some (Entity.enemy enemy)⟩ r acc.2 10000).map
      (fun res => (res.1, res.2.1))) (m, k)

/-- Greedy destination of one enemy (engine.py lines 100-112): step one cell
along the axis with the strictly larger absolute distance to the player,
otherwise along the y axis; a zero distance on the chosen axis moves
nothing. -/
def compute_new_pos (enemy_pos player_pos : Position) : Position :=
  let dist_x := player_pos.x - enemy_pos.x
  let dist_y := player_pos.y - enemy_pos.y
  if |dist_x| > |dist_y| then
    if 0 < dist_x then ⟨enemy_pos.x + 1, enemy_pos.y⟩
    else if dist_x < 0 then ⟨enemy_pos.x - 1, enemy_pos.y⟩
    else ⟨enemy_pos.x, enemy_pos.y⟩
  else
    if 0 < dist_y then ⟨enemy_pos.x, enemy_pos.y + 1⟩
    else if dist_y < 0 then ⟨enemy_pos.x, enemy_pos.y - 1⟩
    else ⟨enemy_pos.x, enemy_pos.y⟩

/-- Set the stolen-key flag on a tile's enemy payload (engine.py line 118;
in the source this is a field assignment on the enemy tile's entity). -/
def tileStealKey (t : Tile) : Tile :=
  { t with entity := t.entity.map (fun e =>
      match e with
      | Entity.enemy en => Entity.enemy { en with stole_key := true }
      | other => other) }

/-- Increment both ends of a tile's enemy gold-drop range (engine.py lines
119-123). -/
def tileBumpGold (t : Tile) : Tile :=
  { t with entity := t.entity.map (fun e =>
      match e with
      | Entity.enemy en =>
        Entity.enemy { en with gold_drop_range :=
          (en.gold_drop_range.1 + 1, en.gold_drop_range.2 + 1) }
      | other => other) }

/-- The per-enemy grid effects of one simulation step after any battle
dispatch (engine.py lines 113, 116-125): read the enemy tile and the
destination tile, apply the key-steal and gold-range side effects to the
enemy tile in place, and commit the move only when the destination type is
KEY, GOLD or EMPTY. -/
def enemy_move_phase (m : GameMap) (enemy_pos new_pos : Position) : Option GameMap :=
  (get_tile_at m enemy_pos).bind (fun enemy_tile =>
    (get_tile_at m new_pos).bind (fun next_tile =>
      (set_tile m enemy_pos
        (if next_tile.type = TileType.KEY then tileStealKey enemy_tile
         else enemy_tile)).bind (fun m1 =>
        (set_tile m1 enemy_pos
          (if next_tile.type = TileType.GOLD then
            tileBumpGold (if next_tile.type = TileType.KEY then tileStealKey enemy_tile
              else enemy_tile)
           else (if next_tile.type = TileType.KEY then tileStealKey enemy_tile
              else enemy_tile))).bind (fun m2 =>
          if next_tile.type = TileType.KEY ∨ next_tile.type = TileType.GOLD ∨
              next_tile.type = TileType.EMPTY then
            move_entity m2 enemy_pos new_pos
          else
            some m2))))

/-- Observable actions of one enemy's loop body (engine.py lines 99-125), in
source order: the battle dispatch when the greedy destination equals the
player position (line 114-115) strictly precedes the destination-tile read,
the pickup side effects and the move attempt (lines 116-125). -/
inductive EnemyAction where
  | battle
  | stealKey
  | bumpGoldRange
  | move
deriving DecidableEq, Repr

/-- Ordered action trace of one enemy's loop body (engine.py lines 99-125). -/
def enemy_body_actions (m : GameMap) (enemy_pos player_pos : Position) : List EnemyAction :=
  let new_pos := compute_new_pos enemy_pos player_pos
  (if new_pos = player_pos then [EnemyAction.battle] else []) ++
  (match get_tile_at m new_pos with
   | none => []
   | some next_tile =>
     (if next_tile.type = TileType.KEY then [EnemyAction.stealKey] else []) ++
     (if next_tile.type = TileType.GOLD then [EnemyAction.bumpGoldRange] else []) ++
     (if next_tile.type = TileType.KEY ∨ next_tile.type = TileType.GOLD ∨
         next_tile.type = TileType.EMPTY then [EnemyAction.move] else []))

/-- Player attack.  Modelled from the spec: `entities.py` is absent from the
sources; per spec section 6, `attack(other)` applies `strength` damage to
`other.health`. -/
def attackEnemy (p : PlayerEntity) (e : EnemyEntity) : EnemyEntity :=
  { e with health := e.health - p.strength }

/-- Enemy attack.  Modelled from the spec: `entities.py` is absent from the
sources; per spec section 6, `attack(other)` applies `strength` damage to
`other.health`. -/
def attackPlayer (e : EnemyEntity) (p : PlayerEntity) : PlayerEntity :=
  { p with health := p.health - e.strength }

/-- The battle loop of `Map.handle_event` (engine.py lines 147-151): while
both combatants have positive health, a uniform coin flip picks the
attacker (`true` means `random.random() > .5`, the player attacks).  The
loop is given explicit fuel; `none` means the fuel ran out before either
health reached zero. -/
def battleLoop (fuel : Nat) (coins : Nat → Bool) (k : Nat) (p : PlayerEntity)
    (e : EnemyEntity) : Option (PlayerEntity × EnemyEntity) :=
  match fuel with
  | 0 => none
  | Nat.succ f =>
    if 0 < p.health ∧ 0 < e.health then
      if coins k then battleLoop f coins (k + 1) p (attackEnemy p e)
      else battleLoop f coins (k + 1) (attackPlayer e p) e
    else
      some (p, e)

/-- Outcome tag of a battle resolution (engine.py lines 152-157):
`gameOver` when the player's health ended non-positive (the source calls
`renderer.shutdown()`), `enemyDown` when the enemy fell with no stolen key,
`keyRegen` when the fallen enemy had stolen the key (the source then chains
a Pickup(Key) event, incrementing the key counter and regenerating the
level), and `nothing` is unreachable from a finished loop. -/
inductive BattleOutcome where
  | gameOver
  | enemyDown
  | keyRegen
  | nothing
deriving DecidableEq, Repr

/-- Entity-level battle resolution (engine.py lines 145-157): run the loop,
then award `drop()` gold to the player when the enemy fell.  `drop` is
modelled from the spec (a `randint` sample over the enemy's current
`gold_drop_range`, driven by the oracle value `dropR`); the Pickup(Key)
chain is reported through the outcome tag and the key counter increment. -/
def resolve_battle (fuel : Nat) (coins : Nat → Bool) (dropR : Int)
    (p : PlayerEntity) (e : EnemyEntity) :
    Option (PlayerEntity × EnemyEntity × BattleOutcome) :=
  (battleLoop fuel coins 0 p e).map (fun pe =>
    let p' := pe.1
    let e' := pe.2
    if p'.health ≤ 0 then (p', e', BattleOutcome.gameOver)
    else if e'.health ≤ 0 then
      let gold' := p'.gold + randint e'.gold_drop_range.1 e'.gold_drop_range.2 dropR
      if e'.stole_key then
        ({ p' with gold := gold', keys := p'.keys + 1 }, e', BattleOutcome.keyRegen)
      else
        ({ p' with gold := gold' }, e', BattleOutcome.enemyDown)
    else (p', e', BattleOutcome.nothing))

/-- `Map.handle_event` for a BATTLE event (engine.py lines 140-157) on the
grid: locate the player as the first PLAYER tile in row-major order, fight
the enemy tile at `enemy_pos`, and write the mutated entity records back to
their cells.  The level regeneration of the Pickup(Key) chain is reported
through the outcome tag (it rebuilds the grid via `initialize_game`,
modelled separately). -/
def handle_event_battle (fuel : Nat) (coins : Nat → Bool) (dropR : Int)
    (m : GameMap) (enemy_pos : Position) : Option (GameMap × BattleOutcome) :=
  match (find_tiles m TileType.PLAYER).head? with
  | none => none
  | some player_pos =>
    (get_tile_at m player_pos).bind (fun ptile =>
      (get_tile_at m enemy_pos).bind (fun etile =>
        match ptile.entity, etile.entity with
        | some (Entity.player pe), some (Entity.enemy ee) =>
          (resolve_battle fuel coins dropR pe ee).bind (fun res =>
            (set_tile m player_pos { ptile with entity := some (Entity.player res.1) }).bind
              (fun m1 =>
                (set_tile m1 enemy_pos { etile with entity := some (Entity.enemy res.2.1) }).map
                  (fun m2 => (m2, res.2.2))))
        | _, _ => none))

/-- Index pairs processed by the corridor loops (engine.py lines 228-231):
`for i in range(n): for j in range(n):` where the inner body first executes
`i = 0` and only then reads `rooms[i], rooms[j]`; the outer `for` reassigns
`i` from its iterator on every outer step regardless of the inner
mutation. -/
def corridorInner : Nat → List Nat → List (Nat × Nat)
  | _, [] => []
  | _i, j :: js =>
    let i := 0
    (i, j) :: corridorInner i js

/-- All `(i, j)` index pairs the corridor loops read, in execution order. -/
def corridorPairs (n : Nat) : List (Nat × Nat) :=
  (List.range n).flatMap (fun i => corridorInner i (List.range n))

/-- The carve loop `while point_a.y != y: carve(point_a); point_a.y += 1`
(engine.py lines 253-255), unrolled over the iteration count
`(y - point_a.y).toNat` (the loop terminates exactly when the start does not
exceed the target, which `randint`'s lower clamp guarantees at every call
site). -/
def carve_down (m : GameMap) (x y0 : Int) : Nat → Option GameMap
  | 0 => some m
  | Nat.succ n => (carve m ⟨x, y0⟩).bind (fun m' => carve_down m' x (y0 + 1) n)

/-- The carve loop `while point_b.y != y: carve(point_b); point_b.y -= 1`
(engine.py lines 256-258), unrolled over `(point_b.y - y).toNat`. -/
def carve_up (m : GameMap) (x y0 : Int) : Nat → Option GameMap
  | 0 => some m
  | Nat.succ n => (carve m ⟨x, y0⟩).bind (fun m' => carve_up m' x (y0 - 1) n)

/-- The carve loop `while point_a.x != x: carve(point_a); point_a.x += 1`
(engine.py lines 268-270), unrolled over `(x - point_a.x).toNat`. -/
def carve_right (m : GameMap) (x0 y : Int) : Nat → Option GameMap
  | 0 => some m
  | Nat.succ n => (carve m ⟨x0, y⟩).bind (fun m' => carve_right m' (x0 + 1) y n)

/-- The carve loop `while point_b.x != x: carve(point_b); point_b.x -= 1`
(engine.py lines 271-273), unrolled over `(point_b.x - x).toNat`. -/
def carve_left (m : GameMap) (x0 y : Int) : Nat → Option GameMap
  | 0 => some m
  | Nat.succ n => (carve m ⟨x0, y⟩).bind (fun m' => carve_left m' (x0 - 1) y n)

/-- The vertical corridor branch (engine.py lines 244-258): orient the pair
so `room_a` has the smaller y, draw the meeting row `y` between the facing
edges, draw one entry offset along each facing edge, then carve from each
entry point toward the meeting row (each loop stops without carving the
meeting row itself). -/
def carve_vertical (m : GameMap) (a b : Rect) (r : Rng) (k : Nat) :
    Option (GameMap × Nat) :=
  let ab := if a.position.y > b.position.y then (b, a) else (a, b)
  let ra := ab.1
  let rb := ab.2
  let y := randint (ra.position.y + ra.size.h) rb.position.y (r k)
  let point_a_x := ra.position.x + randint 0 ra.size.w (r (k + 1))
  let point_a_y := ra.position.y + ra.size.h
  let point_b_x := rb.position.x + randint 0 rb.size.w (r (k + 2))
  let point_b_y := rb.position.y
  (carve_down m point_a_x point_a_y (y - point_a_y).toNat).bind (fun m1 =>
    (carve_up m1 point_b_x point_b_y (point_b_y - y).toNat).map (fun m2 => (m2, k + 3)))

/-- The horizontal corridor branch (engine.py lines 260-273), mirror image
of the vertical one. -/
def carve_horizontal (m : GameMap) (a b : Rect) (r : Rng) (k : Nat) :
    Option (GameMap × Nat) :=
  let ab := if a.position.x > b.position.x then (b, a) else (a, b)
  let ra := ab.1
  let rb := ab.2
  let x := randint (ra.position.x + ra.size.w) rb.position.x (r k)
  let point_a_x := ra.position.x + ra.size.w
  let point_a_y := ra.position.y + randint 0 ra.size.h (r (k + 1))
  let point_b_x := rb.position.x
  let point_b_y := rb.position.y + randint 0 rb.size.h (r (k + 2))
  (carve_right m point_a_x point_a_y (x - point_a_x).toNat).bind (fun m1 =>
    (carve_left m1 point_b_x point_b_y (point_b_x - x).toNat).map (fun m2 => (m2, k + 3)))

/-- One iteration of the corridor inner loop body for an index pair
(engine.py lines 231-274) over the sorted registry `rooms`: skip
positionally equal rooms, compute the horizontal and vertical separation
checks, choose the direction (drawing one `randint` when both axes are
separated), and carve.  The returned boolean records whether control
reaches the `render_step()` call (the `continue` on line 243 skips it). -/
def corridor_pair_step (sorted_rooms : List Rect) (ij : Nat × Nat) (m : GameMap)
    (r : Rng) (k : Nat) : Option (GameMap × Nat × Bool) :=
  let dflt : Rect := ⟨⟨0, 0⟩, ⟨0, 0⟩⟩
  let room_a := sorted_rooms.getD ij.1 dflt
  let room_b := sorted_rooms.getD ij.2 dflt
  if Rect.eqPy room_a room_b then
    some (m, k, true)
  else
    let h_check := decide (room_a.position.x + room_a.size.w < room_b.position.x) ||
      decide (room_b.position.x + room_b.size.w < room_a.position.x)
    let v_check := decide (room_a.position.y + room_a.size.h < room_b.position.y) ||
      decide (room_b.position.y + room_b.size.h < room_a.position.y)
    if v_check && h_check then
      let direction := randint 0 1 (r k)
      if direction = 0 then
        (carve_vertical m room_a room_b r (k + 1)).map (fun p => (p.1, p.2, true))
      else
        (carve_horizontal m room_a room_b r (k + 1)).map (fun p => (p.1, p.2, true))
    else if v_check then
      (carve_vertical m room_a room_b r k).map (fun p => (p.1, p.2, true))
    else if h_check then
      (carve_horizontal m room_a room_b r k).map (fun p => (p.1, p.2, true))
    else
      some (m, k, false)

/-- The corridor loops over a pair list (engine.py lines 228-277),
threading the grid, the `randint` counter and the render callback counter;
a render result of `-1` returns immediately. -/
def corridors_go (sorted_rooms : List Rect) (r : Rng) (render : Nat → Int) :
    List (Nat × Nat) → GameMap → Nat → Nat → Option GameMap
  | [], m, _, _ => some m
  | ij :: rest, m, k, s =>
    (corridor_pair_step sorted_rooms ij m r k).bind (fun res =>
      if res.2.2 then
        if render s = -1 then some res.1
        else corridors_go sorted_rooms r render rest res.1 res.2.1 (s + 1)
      else
        corridors_go sorted_rooms r render rest res.1 res.2.1 s)

/-- Stable insertion into a y-sorted list: the new element goes after all
elements with a smaller-or-equal y, as Python's stable `sorted` keeps equal
keys in their original order. -/
def insertByY (x : Rect) : List Rect → List Rect
  | [] => [x]
  | y :: ys => if y.position.y ≤ x.position.y then y :: insertByY x ys else x :: y :: ys

/-- Stable ascending sort by y-position, modelling `sorted(self.rooms,
key=lambda room: room.position.y)` (engine.py line 227). -/
def sortByY : List Rect → List Rect
  | [] => []
  | x :: xs => insertByY x (sortByY xs)

/-- `Map.generate_corridors` (engine.py lines 226-277): sort the registry by
ascending y and run the double loop. -/
def generate_corridors (m : GameMap) (r : Rng) (k : Nat) (render : Nat → Int) (s : Nat) :
    Option GameMap :=
  let sorted_rooms := sortByY m.rooms
  corridors_go sorted_rooms r render (corridorPairs sorted_rooms.length) m k s

/-- The phases of `Map.initialize_game` (engine.py lines 127-137), one tag
per statement group, in the source's textual order of the calls. -/
inductive Phase where
  | reset
  | genRooms
  | placePlayer
  | genEnemies
  | placeKey
  | placeGold
  | genCorridors
deriving DecidableEq, Repr, BEq

/-- One phase of `Map.initialize_game` as a transformer of the running
state (grid, `randint` counter, render counter).  `genEnemies` and
`placeGold` draw their counts from the player's key count exactly as lines
131 and 134 do (`int(keys*1.5)` is the floor `3*keys/2`). -/
def runPhase (pe : PlayerEntity) (r : Rng) (render : Nat → Int) (ph : Phase)
    (st : GameMap × Nat × Nat) : Option (GameMap × Nat × Nat) :=
  let m := st.1
  let k := st.2.1
  let s := st.2.2
  match ph with
  | Phase.reset => some (reset_state m, k, s)
  | Phase.genRooms =>
    (generate_rooms m 1000 (2, 5) (2, 5) r k).map (fun p => (p.1, p.2, s))
  | Phase.placePlayer =>
    (place_entity_randomly m ⟨TileType.PLAYER, some (Entity.player pe)⟩ r k 10000).map
      (fun p => (p.1, p.2.1, s))
  | Phase.genEnemies =>
    let enemy_count := randint (1 + (3 * (pe.keys : Int)) / 2) (2 + (pe.keys : Int) * 2) (r k)
    (generate_enemies m enemy_count.toNat r (k + 1)).map (fun p => (p.1, p.2, s))
  | Phase.placeKey =>
    (place_entity_randomly m ⟨TileType.KEY, none⟩ r k 10000).map (fun p => (p.1, p.2.1, s))
  | Phase.placeGold =>
    let gold_count := randint (2 + (pe.keys : Int)) (2 + (pe.keys : Int) * 2) (r k)
    (List.range gold_count.toNat).foldlM (fun acc _ =>
      (place_entity_randomly acc.1 ⟨TileType.GOLD, none⟩ r acc.2.1 10000).map
        (fun p => (p.1, p.2.1, acc.2.2))) (m, k + 1, s)
  | Phase.genCorridors =>
    (generate_corridors m r k render s).map (fun m' => (m', k, s))

/-- `Map.initialize_game` (engine.py lines 127-137): the phases in source
order — reset, room generation, player placement, enemy count draw and
enemy placement, key placement, gold count draw and gold placement,
corridor generation. -/
def init_game (pe : PlayerEntity) (r : Rng) (render : Nat → Int)
    (st : GameMap × Nat × Nat) : Option (GameMap × Nat × Nat) :=
  (runPhase pe r render Phase.reset st).bind (fun s1 =>
    (runPhase pe r render Phase.genRooms s1).bind (fun s2 =>
      (runPhase pe r render Phase.placePlayer s2).bind (fun s3 =>
        (runPhase pe r render Phase.genEnemies s3).bind (fun s4 =>
          (runPhase pe r render Phase.placeKey s4).bind (fun s5 =>
            (runPhase pe r render Phase.placeGold s5).bind (fun s6 =>
              runPhase pe r render Phase.genCorridors s6))))))

/-- The call order of `Map.initialize_game` (engine.py lines 128-137). -/
def init_game_phases : List Phase :=
  [Phase.reset, Phase.genRooms, Phase.placePlayer, Phase.genEnemies,
   Phase.placeKey, Phase.placeGold, Phase.genCorridors]

/-! ### Infrastructure lemmas about Python list indexing -/

/-- A uniform `h`-row, `w`-column grid, as every reachable map state has
(`reset_state` builds one and all writes preserve shape). -/
def UniformGrid (m : GameMap) (w h : Nat) : Prop :=
  m.state.length = h ∧ ∀ row ∈ m.state, row.length = w

/-- In-bounds positions in the claims' sense. -/
def InB (w h : Nat) (p : Position) : Prop :=
  0 ≤ p.x ∧ p.x < (w : Int) ∧ 0 ≤ p.y ∧ p.y < (h : Int)

theorem pyIdx_inb {n : Nat} {i : Int} (h0 : 0 ≤ i) (h1 : i < (n : Int)) :
    pyIdx n i = some i.toNat := by
  simp [pyIdx, h0, h1]

theorem pyGet_inb {α : Type} {l : List α} {i : Int} (h0 : 0 ≤ i) (h1 : i < (l.length : Int)) :
    pyGet l i = l[i.toNat]? := by
  simp [pyGet, pyIdx_inb h0 h1]

theorem pySet_inb {α : Type} {l : List α} {i : Int} (a : α) (h0 : 0 ≤ i)
    (h1 : i < (l.length : Int)) : pySet l i a = some (l.set i.toNat a) := by
  simp [pySet, pyIdx_inb h0 h1]

theorem someBind {α β : Type} (a : α) (f : α → Option β) : (some a).bind f = f a := rfl

theorem pyGet_mem {α : Type} {l : List α} {i : Int} {a : α} (h : pyGet l i = some a) :
    a ∈ l := by
  unfold pyGet at h
  cases hk : pyIdx l.length i with
  | none => simp [hk] at h
  | some k =>
    rw [hk, someBind] at h
    exact List.getElem?_mem h

theorem pyIdx_none {n : Nat} {i : Int} (h : (n : Int) ≤ i ∨ i < -(n : Int)) :
    pyIdx n i = none := by
  unfold pyIdx
  rcases h with h | h
  · have h0 : 0 ≤ i := le_trans (Int.ofNat_nonneg n) h
    simp [h0, not_lt.mpr h]
  · have h0 : ¬ 0 ≤ i := by omega
    have h1 : ¬ 0 ≤ i + (n : Int) := by omega
    simp [h0, h1]

theorem pyIdx_wrap {n : Nat} {i : Int} (h0 : -(n : Int) ≤ i) (h1 : i < 0) :
    pyIdx n i = pyIdx n (i + (n : Int)) := by
  have hlt : i + (n : Int) < (n : Int) := by omega
  have hge : 0 ≤ i + (n : Int) := by omega
  rw [pyIdx_inb hge hlt]
  unfold pyIdx
  simp [not_le.mpr h1, hge]

theorem pyGet_some_of_inb {α : Type} {l : List α} {i : Int} (h0 : 0 ≤ i)
    (h1 : i < (l.length : Int)) : ∃ a, pyGet l i = some a := by
  rw [pyGet_inb h0 h1]
  have hk : i.toNat < l.length := by omega
  exact ⟨l[i.toNat], List.getElem?_eq_getElem hk⟩

/-! ### C6: the corridor loops only ever pair against the first room -/

theorem corridorInner_first {i : Nat} {js : List Nat} {p : Nat × Nat}
    (h : p ∈ corridorInner i js) : p.1 = 0 := by
  induction js generalizing i with
  | nil => simp [corridorInner] at h
  | cons j js ih =>
    simp only [corridorInner, List.mem_cons] at h
    rcases h with h | h
    · rw [h]
    · exact ih h

/-- C6: every index pair the corridor double loop reads has first component
0, because the inner loop body resets the outer index to 0 before the rooms
are read; consequently no pair of two rooms both distinct from the first
sorted room is ever processed. -/
theorem corridor_pairs_use_first_room (n : Nat) :
    (∀ p ∈ corridorPairs n, p.1 = 0) ∧
    (¬ ∃ p ∈ corridorPairs n, p.1 ≠ 0 ∧ p.2 ≠ 0) := by
  constructor
  · intro p hp
    simp only [corridorPairs, List.mem_flatMap] at hp
    rcases hp with ⟨i, _, hmem⟩
    exact corridorInner_first hmem
  · rintro ⟨p, hp, hne, -⟩
    apply hne
    simp only [corridorPairs, List.mem_flatMap] at hp
    rcases hp with ⟨i, _, hmem⟩
    exact corridorInner_first hmem

/-- Witness for C6 at a concrete pair list. -/
theorem corridor_pairs_use_first_room_witness :
    ((0, 2) ∈ corridorPairs 3) ∧ ((0, 2) : Nat × Nat).1 = 0 :=
  ⟨by decide, (corridor_pairs_use_first_room 3).1 (0, 2) (by decide)⟩

/-! ### C8: the order of the initialization phases -/

/-- C8 counterexample: in the call order of `Map.initialize_game`, the key
tile is NOT placed before the enemies are generated (the source generates
enemies at line 132, before the key placement at line 133). -/
theorem init_game_key_not_before_enemies :
    ¬ (init_game_phases.findIdx (fun x => decide (x = Phase.placeKey)) <
       init_game_phases.findIdx (fun x => decide (x = Phase.genEnemies))) := by
  decide

/-- C8 amended: `Map.initialize_game` performs exactly the phases reset,
room generation, player placement, enemy-count draw plus enemy placement,
key placement, gold-count draw plus gold placement, and corridor
generation, in that order — i.e. the enemies are placed BEFORE the key and
gold tiles, not after them as the claim states. -/
theorem init_game_phase_order :
    (∀ (pe : PlayerEntity) (r : Rng) (render : Nat → Int) (st : GameMap × Nat × Nat),
      init_game pe r render st =
        init_game_phases.foldlM (fun acc ph => runPhase pe r render ph acc) st) ∧
    init_game_phases =
      [Phase.reset, Phase.genRooms, Phase.placePlayer, Phase.genEnemies,
       Phase.placeKey, Phase.placeGold, Phase.genCorridors] := by
  refine ⟨fun pe r render st => ?_, rfl⟩
  simp only [init_game_phases, List.foldlM_cons, List.foldlM_nil, init_game, bind_pure]
  rfl

/-! ### C7: out-of-range reads and Python's negative-index wrap -/

/-- A 2-column, 1-row grid whose right cell is a gold tile; reading the
out-of-bounds position x = -1 silently wraps to it. -/
def wrapMap : GameMap :=
  ⟨⟨2, 1⟩, [], [[FillTileSingleton, ⟨TileType.GOLD, none⟩]]⟩

/-- C7 counterexample: at the out-of-bounds position (-1, 0) (x < 0),
`get_tile_at` does not fail; it silently returns the tile of the in-bounds
position (1, 0). -/
theorem get_tile_at_wraps :
    get_tile_at wrapMap ⟨-1, 0⟩ = some ⟨TileType.GOLD, none⟩ ∧
    get_tile_at wrapMap ⟨1, 0⟩ = some ⟨TileType.GOLD, none⟩ := by
  constructor <;> rfl

/-- C7 amended: on a uniform `w x h` grid, `get_tile_at` fails (IndexError,
modelled as `none`) exactly for indices at least one whole extent out of
range (`x ≥ w`, `x < -w`, `y ≥ h` or `y < -h`); a negative index within one
extent does not fail but silently wraps to the in-bounds position obtained
by adding the extent. -/
theorem get_tile_at_bounds (m : GameMap) (w h : Nat) (hu : UniformGrid m w h)
    (p : Position) :
    (((w : Int) ≤ p.x ∧ -(h : Int) ≤ p.y ∧ p.y < (h : Int)) ∨ p.x < -(w : Int) ∧
        -(h : Int) ≤ p.y ∧ p.y < (h : Int) ∨ (h : Int) ≤ p.y ∨ p.y < -(h : Int) →
      get_tile_at m p = none) ∧
    (-(w : Int) ≤ p.x ∧ p.x < (w : Int) ∧ -(h : Int) ≤ p.y ∧ p.y < (h : Int) →
      get_tile_at m p =
        get_tile_at m ⟨if p.x < 0 then p.x + (w : Int) else p.x,
                       if p.y < 0 then p.y + (h : Int) else p.y⟩) := by
  obtain ⟨hlen, hrows⟩ := hu
  have hrow : ∀ {row : List Tile} {i : Int}, pyGet m.state i = some row →
      row.length = w := by
    intro row i hg
    exact hrows row (pyGet_mem hg)
  constructor
  · rintro (⟨hx, hy0, hy1⟩ | ⟨hx, hy0, hy1⟩ | hy | hy)
    · unfold get_tile_at
      cases hg : pyGet m.state p.y with
      | none => rfl
      | some row =>
        have hw := hrow hg
        rw [someBind]
        unfold pyGet
        rw [hw, pyIdx_none (Or.inl hx)]
        rfl
    · unfold get_tile_at
      cases hg : pyGet m.state p.y with
      | none => rfl
      | some row =>
        have hw := hrow hg
        rw [someBind]
        unfold pyGet
        rw [hw, pyIdx_none (Or.inr hx)]
        rfl
    · unfold get_tile_at pyGet
      rw [hlen, pyIdx_none (Or.inl hy)]
      rfl
    · unfold get_tile_at pyGet
      rw [hlen, pyIdx_none (Or.inr hy)]
      rfl
  · rintro ⟨hx0, hx1, hy0, hy1⟩
    have hyidx : pyIdx m.state.length p.y =
        pyIdx m.state.length (if p.y < 0 then p.y + (h : Int) else p.y) := by
      by_cases hneg : p.y < 0
      · rw [if_pos hneg, hlen]
        exact pyIdx_wrap hy0 hneg
      · rw [if_neg hneg]
    have hgy : pyGet m.state p.y =
        pyGet m.state (if p.y < 0 then p.y + (h : Int) else p.y) := by
      unfold pyGet
      rw [hyidx]
    unfold get_tile_at
    rw [hgy]
    cases hg : pyGet m.state (if p.y < 0 then p.y + (h : Int) else p.y) with
    | none => rfl
    | some row =>
      rw [someBind, someBind]
      have hw : row.length = w := hrows row (pyGet_mem hg)
      have hxidx : pyIdx row.length p.x =
          pyIdx row.length (if p.x < 0 then p.x + (w : Int) else p.x) := by
        by_cases hneg : p.x < 0
        · rw [if_pos hneg, hw]
          exact pyIdx_wrap hx0 hneg
        · rw [if_neg hneg]
      unfold pyGet
      rw [hxidx]

/-- Witness for C7 amended on a concrete grid: reads one whole extent out
of range fail, and x = -1 wraps to x + 2. -/
theorem get_tile_at_bounds_witness :
    get_tile_at wrapMap ⟨2, 0⟩ = none ∧
    get_tile_at wrapMap ⟨-1, 0⟩ = get_tile_at wrapMap ⟨1, 0⟩ := by
  constructor
  · exact (get_tile_at_bounds wrapMap 2 1 (by constructor <;> simp [wrapMap]) ⟨2, 0⟩).1
      (by left; refine ⟨by norm_num, by norm_num, by norm_num⟩)
  · exact (get_tile_at_bounds wrapMap 2 1 (by constructor <;> simp [wrapMap]) ⟨-1, 0⟩).2
      (by refine ⟨by norm_num, by norm_num, by norm_num, by norm_num⟩)

/-! ### Workhorse lemmas for in-bounds grid reads and writes -/

theorem get_tile_at_inb {m : GameMap} {w h : Nat} (hu : UniformGrid m w h) {p : Position}
    (hp : InB w h p) : ∃ t, get_tile_at m p = some t := by
  obtain ⟨hlen, hrows⟩ := hu
  obtain ⟨hx0, hx1, hy0, hy1⟩ := hp
  unfold get_tile_at
  have hy1' : p.y < (m.state.length : Int) := by rw [hlen]; exact hy1
  rw [pyGet_inb hy0 hy1']
  have hyk : p.y.toNat < m.state.length := by omega
  rw [List.getElem?_eq_getElem hyk, someBind]
  have hw : m.state[p.y.toNat].length = w := hrows _ (List.getElem_mem hyk)
  have hx1' : p.x < (m.state[p.y.toNat].length : Int) := by rw [hw]; exact hx1
  rw [pyGet_inb hx0 hx1']
  have hxk : p.x.toNat < m.state[p.y.toNat].length := by omega
  exact ⟨_, List.getElem?_eq_getElem hxk⟩

/-- Writing a tile at an in-bounds position of a uniform grid succeeds,
preserves the shape, and rewrites exactly the cells that alias the written
position under Python indexing. -/
theorem set_tile_spec {m : GameMap} {w h : Nat} (hu : UniformGrid m w h) {p : Position}
    (hp : InB w h p) (t : Tile) :
    ∃ m', set_tile m p t = some m' ∧ m'.size = m.size ∧ m'.rooms = m.rooms ∧
      UniformGrid m' w h ∧
      ∀ q : Position, get_tile_at m' q =
        if pyIdx h q.y = pyIdx h p.y ∧ pyIdx w q.x = pyIdx w p.x then some t
        else get_tile_at m q := by
  obtain ⟨hlen, hrows⟩ := hu
  obtain ⟨hx0, hx1, hy0, hy1⟩ := hp
  have hy1' : p.y < (m.state.length : Int) := by rw [hlen]; exact hy1
  have hyk : p.y.toNat < m.state.length := by omega
  have hw : m.state[p.y.toNat].length = w := hrows _ (List.getElem_mem hyk)
  have hx1' : p.x < (m.state[p.y.toNat].length : Int) := by rw [hw]; exact hx1
  have hxk : p.x.toNat < m.state[p.y.toNat].length := by omega
  set row' : List Tile := m.state[p.y.toNat].set p.x.toNat t with hrowdef
  set st' : List (List Tile) := m.state.set p.y.toNat row' with hstdef
  have hset : set_tile m p t = some { m with state := st' } := by
    unfold set_tile
    rw [pyGet_inb hy0 hy1', List.getElem?_eq_getElem hyk, someBind]
    rw [pySet_inb t hx0 hx1', someBind]
    have hy1'' : p.y < ((m.state.length : Nat) : Int) := hy1'
    rw [pySet_inb row' hy0 hy1'']
    rfl
  refine ⟨{ m with state := st' }, hset, rfl, rfl, ?_, ?_⟩
  · constructor
    · simpa [hstdef] using hlen
    · intro row hrow
      rcases List.mem_or_eq_of_mem_set hrow with hrow | hrow
      · exact hrows row hrow
      · rw [hrow, hrowdef, List.length_set]
        exact hw
  · intro q
    have hstlen : st'.length = m.state.length := by rw [hstdef, List.length_set]
    have hpy : pyIdx h p.y = some p.y.toNat := pyIdx_inb hy0 hy1
    have hpx : pyIdx w p.x = some p.x.toNat := pyIdx_inb hx0 hx1
    show (pyGet st' q.y).bind (fun row => pyGet row q.x) = _
    have hgy : pyGet st' q.y = (pyIdx h q.y).bind (fun k => st'[k]?) := by
      unfold pyGet
      rw [hstlen, hlen]
    rw [hgy]
    cases hk : pyIdx h q.y with
    | none =>
      rw [if_neg (by simp [hk, hpy]), Option.none_bind]
      show _ = (pyGet m.state q.y).bind _
      unfold pyGet
      rw [hlen, hk]
      simp
    | some ky =>
      rw [someBind]
      by_cases hky : ky = p.y.toNat
      · subst hky
        have hst : st'[p.y.toNat]? = some row' := by
          rw [hstdef]
          rw [List.getElem?_set]
          simp [hyk]
        rw [hst, someBind]
        have hrowlen : row'.length = w := by rw [hrowdef, List.length_set]; exact hw
        have hgx : pyGet row' q.x = (pyIdx w q.x).bind (fun k => row'[k]?) := by
          unfold pyGet
          rw [hrowlen]
        rw [hgx]
        cases hkx : pyIdx w q.x with
        | none =>
          rw [if_neg (by simp [hkx, hpx]), Option.none_bind]
          show _ = (pyGet m.state q.y).bind _
          unfold pyGet
          rw [hlen, hk, someBind, List.getElem?_eq_getElem hyk, someBind]
          rw [hw, hkx]
          simp
        | some kx =>
          rw [someBind]
          by_cases hkxp : kx = p.x.toNat
          · subst hkxp
            rw [if_pos (by simp [hk, hpy, hkx, hpx]), hrowdef]
            rw [List.getElem?_set]
            simp [hxk]
          · rw [if_neg (by simp [hk, hpy, hkx, hpx, hkxp])]
            have : row'[kx]? = m.state[p.y.toNat][kx]? := by
              rw [hrowdef, List.getElem?_set, if_neg (by omega)]
            rw [this]
            show _ = (pyGet m.state q.y).bind _
            unfold pyGet
            rw [hlen, hk, someBind, List.getElem?_eq_getElem hyk, someBind]
            rw [hw, hkx, someBind]
      · have hst : st'[ky]? = m.state[ky]? := by
          rw [hstdef, List.getElem?_set, if_neg (by omega)]
        rw [hst]
        rw [if_neg (by simp [hk, hpy, hky])]
        show _ = (pyGet m.state q.y).bind _
        unfold pyGet
        rw [hlen, hk, someBind]

/-- On a uniform grid, two distinct in-bounds positions index distinct
cells. -/
theorem pyIdx_inb_ne {w h : Nat} {p q : Position} (hp : InB w h p) (hq : InB w h q)
    (hne : q ≠ p) : ¬ (pyIdx h q.y = pyIdx h p.y ∧ pyIdx w q.x = pyIdx w p.x) := by
  obtain ⟨hx0, hx1, hy0, hy1⟩ := hp
  obtain ⟨hx0', hx1', hy0', hy1'⟩ := hq
  rw [pyIdx_inb hy0' hy1', pyIdx_inb hy0 hy1, pyIdx_inb hx0' hx1', pyIdx_inb hx0 hx1]
  rintro ⟨h1, h2⟩
  apply hne
  have hy : q.y = p.y := by
    have := Option.some.inj h1
    omega
  have hx : q.x = p.x := by
    have := Option.some.inj h2
    omega
  cases p
  cases q
  simp_all

/-! ### C4: greedy enemy step and battle-before-move ordering -/

/-- C4: the greedy destination moves one cell along the x axis toward the
player exactly when `|dx| > |dy|`, and otherwise one cell along the y axis
(ties fall into the y branch); `Int.sign` is 0 on a zero distance, so no
move happens along an axis whose distance is zero; and whenever the
destination equals the player position, the Battle dispatch is the first
action of the loop body, before the destination read and the move
attempt. -/
theorem enemy_greedy_step (enemy_pos player_pos : Position) :
    (|player_pos.x - enemy_pos.x| > |player_pos.y - enemy_pos.y| →
      compute_new_pos enemy_pos player_pos =
        ⟨enemy_pos.x + (player_pos.x - enemy_pos.x).sign, enemy_pos.y⟩) ∧
    (¬ (|player_pos.x - enemy_pos.x| > |player_pos.y - enemy_pos.y|) →
      compute_new_pos enemy_pos player_pos =
        ⟨enemy_pos.x, enemy_pos.y + (player_pos.y - enemy_pos.y).sign⟩) ∧
    (∀ m : GameMap, compute_new_pos enemy_pos player_pos = player_pos →
      (enemy_body_actions m enemy_pos player_pos).head? = some EnemyAction.battle) := by
  refine ⟨?_, ?_, ?_⟩
  · intro hgt
    unfold compute_new_pos
    rw [if_pos hgt]
    rcases lt_trichotomy 0 (player_pos.x - enemy_pos.x) with hpos | heq | hneg
    · rw [if_pos hpos, Int.sign_eq_one_of_pos hpos]
    · rw [if_neg (by omega), if_neg (by omega), ← heq, Int.sign_zero]
      simp
    · rw [if_neg (by omega), if_pos hneg, Int.sign_eq_neg_one_of_neg hneg]
      simp
      omega
  · intro hle
    unfold compute_new_pos
    rw [if_neg hle]
    rcases lt_trichotomy 0 (player_pos.y - enemy_pos.y) with hpos | heq | hneg
    · rw [if_pos hpos, Int.sign_eq_one_of_pos hpos]
    · rw [if_neg (by omega), if_neg (by omega), ← heq, Int.sign_zero]
      simp
    · rw [if_neg (by omega), if_pos hneg, Int.sign_eq_neg_one_of_neg hneg]
      simp
      omega
  · intro m hnp
    unfold enemy_body_actions
    rw [hnp]
    simp

/-- Witness for C4 at the spec's scenario: enemy (5,5), player (5,6) — the
destination is (5,6) and the Battle dispatch precedes everything else. -/
theorem enemy_greedy_step_witness :
    (enemy_body_actions ⟨⟨1, 1⟩, [], [[FillTileSingleton]]⟩ ⟨5, 5⟩ ⟨5, 6⟩).head? =
      some EnemyAction.battle :=
  (enemy_greedy_step ⟨5, 5⟩ ⟨5, 6⟩).2.2 ⟨⟨1, 1⟩, [], [[FillTileSingleton]]⟩ (by decide)

/-! ### C1: move_entity -/

/-- A 2-column, 1-row grid with a fill cell at (0,0) and the player at
(1,0): a blocked `move_entity` leaves everything unchanged, in particular
the source tile is NOT reset to Empty. -/
def blockedMoveMap : GameMap :=
  ⟨⟨2, 1⟩, [],
   [[FillTileSingleton, ⟨TileType.PLAYER, some (Entity.player ⟨100, 10, 0, 0⟩)⟩]]⟩

/-- C1 counterexample: with the destination tile of kind Player, the call
returns the map unchanged and the tile at the source is still FILL, not
EMPTY — the claimed unconditional reset of the source tile does not
happen. -/
theorem move_entity_blocked_no_reset :
    move_entity blockedMoveMap ⟨0, 0⟩ ⟨1, 0⟩ = some blockedMoveMap ∧
    get_tile_at blockedMoveMap ⟨0, 0⟩ = some FillTileSingleton ∧
    FillTileSingleton.type ≠ TileType.EMPTY := by
  refine ⟨by rfl, by rfl, by decide⟩

/-- C1 amended: for distinct in-bounds positions a, b of a uniform grid:
if the tile at b has kind Player, `move_entity(a,b)` returns the map
completely unchanged (no copy AND no reset of a); otherwise the tile at b
becomes the prior tile at a, the tile at a becomes Empty, and every other
in-bounds cell is unchanged. -/
theorem move_entity_spec (m : GameMap) (w h : Nat) (a b : Position) (ta tb : Tile)
    (hu : UniformGrid m w h) (ha : InB w h a) (hb : InB w h b) (hne : a ≠ b)
    (hga : get_tile_at m a = some ta) (hgb : get_tile_at m b = some tb) :
    (tb.type = TileType.PLAYER → move_entity m a b = some m) ∧
    (tb.type ≠ TileType.PLAYER → ∃ m', move_entity m a b = some m' ∧
      get_tile_at m' b = some ta ∧ get_tile_at m' a = some EmptyTileSingleton ∧
      ∀ q : Position, InB w h q → q ≠ a → q ≠ b → get_tile_at m' q = get_tile_at m q) := by
  constructor
  · intro hpl
    unfold move_entity
    rw [hgb, someBind, if_neg (by simp [hpl])]
  · intro hpl
    unfold move_entity
    rw [hgb, someBind, if_pos hpl, hga, someBind]
    obtain ⟨m1, hm1, -, -, hu1, hget1⟩ := set_tile_spec hu hb ta
    rw [hm1, someBind]
    obtain ⟨m2, hm2, -, -, hu2, hget2⟩ := set_tile_spec hu1 ha EmptyTileSingleton
    rw [hm2]
    refine ⟨m2, rfl, ?_, ?_, ?_⟩
    · rw [hget2 b, if_neg (pyIdx_inb_ne ha hb hne.symm), hget1 b,
        if_pos ⟨rfl, rfl⟩]
    · rw [hget2 a, if_pos ⟨rfl, rfl⟩]
    · intro q hq hqa hqb
      rw [hget2 q, if_neg (pyIdx_inb_ne ha hq hqa), hget1 q,
        if_neg (pyIdx_inb_ne hb hq hqb)]

/-- Witness for C1 amended on a concrete grid: moving an enemy tile from
(0,0) onto the empty cell (1,0) of a 2x1 grid copies it there and empties
the source. -/
theorem move_entity_spec_witness :
    ∃ m', move_entity ⟨⟨2, 1⟩, [], [[⟨TileType.ENEMY, none⟩, EmptyTileSingleton]]⟩
        ⟨0, 0⟩ ⟨1, 0⟩ = some m' ∧
      get_tile_at m' ⟨1, 0⟩ = some ⟨TileType.ENEMY, none⟩ ∧
      get_tile_at m' ⟨0, 0⟩ = some EmptyTileSingleton ∧
      ∀ q : Position, InB 2 1 q → q ≠ ⟨0, 0⟩ → q ≠ ⟨1, 0⟩ →
        get_tile_at m' q = get_tile_at ⟨⟨2, 1⟩, [], [[⟨TileType.ENEMY, none⟩, EmptyTileSingleton]]⟩ q :=
  (move_entity_spec ⟨⟨2, 1⟩, [], [[⟨TileType.ENEMY, none⟩, EmptyTileSingleton]]⟩ 2 1
    ⟨0, 0⟩ ⟨1, 0⟩ ⟨TileType.ENEMY, none⟩ EmptyTileSingleton
    (by constructor <;> simp) (by refine ⟨by norm_num, by norm_num, by norm_num, by norm_num⟩)
    (by refine ⟨by norm_num, by norm_num, by norm_num, by norm_num⟩)
    (by decide) (by rfl) (by rfl)).2 (by decide)

/-! ### C3: per-enemy pickup side effects and move gating -/

theorem list_set_self {α : Type} (l : List α) (i : Nat) (h : i < l.length) :
    l.set i l[i] = l := by
  apply List.ext_getElem?
  intro j
  rw [List.getElem?_set]
  by_cases hj : i = j
  · subst hj
    simp [h]
  · simp [hj]

/-- Writing back the tile just read leaves the map unchanged. -/
theorem set_tile_self {m : GameMap} {w h : Nat} (hu : UniformGrid m w h) {p : Position}
    (hp : InB w h p) {t : Tile} (hget : get_tile_at m p = some t) :
    set_tile m p t = some m := by
  obtain ⟨hlen, hrows⟩ := hu
  obtain ⟨hx0, hx1, hy0, hy1⟩ := hp
  have hy1' : p.y < (m.state.length : Int) := by rw [hlen]; exact hy1
  have hyk : p.y.toNat < m.state.length := by omega
  have hw : m.state[p.y.toNat].length = w := hrows _ (List.getElem_mem hyk)
  have hx1' : p.x < (m.state[p.y.toNat].length : Int) := by rw [hw]; exact hx1
  have hxk : p.x.toNat < m.state[p.y.toNat].length := by omega
  have hval : m.state[p.y.toNat][p.x.toNat] = t := by
    unfold get_tile_at at hget
    rw [pyGet_inb hy0 hy1', List.getElem?_eq_getElem hyk, someBind] at hget
    rw [pyGet_inb hx0 hx1', List.getElem?_eq_getElem hxk] at hget
    exact Option.some.inj hget
  unfold set_tile
  rw [pyGet_inb hy0 hy1', List.getElem?_eq_getElem hyk, someBind]
  rw [pySet_inb t hx0 hx1', someBind]
  rw [← hval, list_set_self _ _ hxk]
  have hy1'' : p.y < ((m.state.length : Nat) : Int) := hy1'
  rw [pySet_inb _ hy0 hy1'', list_set_self _ _ hyk]
  rfl

/-- When the destination type commits the move, the per-enemy step writes
the side-effected enemy tile to the destination and empties the source. -/
theorem enemy_move_phase_commit {m : GameMap} {w h : Nat} {ep np : Position} {et nt : Tile}
    (hu : UniformGrid m w h) (hep : InB w h ep) (hnp : InB w h np) (hne : ep ≠ np)
    (hget : get_tile_at m ep = some et) (hnt : get_tile_at m np = some nt)
    (hcommit : nt.type = TileType.KEY ∨ nt.type = TileType.GOLD ∨
      nt.type = TileType.EMPTY) :
    ∃ m', enemy_move_phase m ep np = some m' ∧
      get_tile_at m' np = some (if nt.type = TileType.GOLD then
          tileBumpGold (if nt.type = TileType.KEY then tileStealKey et else et)
        else (if nt.type = TileType.KEY then tileStealKey et else et)) ∧
      get_tile_at m' ep = some EmptyTileSingleton := by
  have hnotpl : nt.type ≠ TileType.PLAYER := by
    rcases hcommit with hc | hc | hc <;> rw [hc] <;> intro hcon <;> cases hcon
  unfold enemy_move_phase
  rw [hget, someBind, hnt, someBind]
  set t1 : Tile := if nt.type = TileType.KEY then tileStealKey et else et with ht1
  set t2 : Tile := if nt.type = TileType.GOLD then tileBumpGold t1 else t1 with ht2
  obtain ⟨m1, hm1, -, -, hu1, hg1⟩ := set_tile_spec hu hep t1
  rw [hm1, someBind]
  obtain ⟨m2, hm2, -, -, hu2, hg2⟩ := set_tile_spec hu1 hep t2
  rw [hm2, someBind, if_pos hcommit]
  have hg2np : get_tile_at m2 np = some nt := by
    rw [hg2 np, if_neg (pyIdx_inb_ne hep hnp hne.symm), hg1 np,
      if_neg (pyIdx_inb_ne hep hnp hne.symm), hnt]
  have hg2ep : get_tile_at m2 ep = some t2 := by
    rw [hg2 ep, if_pos ⟨rfl, rfl⟩]
  unfold move_entity
  rw [hg2np, someBind, if_pos hnotpl, hg2ep, someBind]
  obtain ⟨m3, hm3, -, -, hu3, hg3⟩ := set_tile_spec hu2 hnp t2
  rw [hm3, someBind]
  obtain ⟨m4, hm4, -, -, hu4, hg4⟩ := set_tile_spec hu3 hep EmptyTileSingleton
  rw [hm4]
  refine ⟨m4, rfl, ?_, ?_⟩
  · rw [hg4 np, if_neg (pyIdx_inb_ne hep hnp hne.symm), hg3 np, if_pos ⟨rfl, rfl⟩]
  · rw [hg4 ep, if_pos ⟨rfl, rfl⟩]

/-- C3: in a simulation step, for an enemy tile at `ep` whose computed
destination `np` holds a Key the stolen-key flag is set, for a Gold
destination both ends of the gold-drop range are incremented by one, for an
Empty destination the enemy tile moves unchanged; the move commits exactly
for destination kinds Empty, Key and Gold (the side-effected enemy tile
ends at `np` and `ep` becomes Empty), while every other destination kind
(Fill, Wall, Enemy, Player) leaves the map completely unchanged. -/
theorem enemy_step_effects (m : GameMap) (w h : Nat) (ep np : Position) (et nt : Tile)
    (ee : EnemyEntity) (hu : UniformGrid m w h) (hep : InB w h ep) (hnp : InB w h np)
    (hne : ep ≠ np) (hget : get_tile_at m ep = some et)
    (hent : et.entity = some (Entity.enemy ee)) (hnt : get_tile_at m np = some nt) :
    (nt.type = TileType.KEY → ∃ m', enemy_move_phase m ep np = some m' ∧
      get_tile_at m' np =
        some { et with entity := some (Entity.enemy { ee with stole_key := true }) } ∧
      get_tile_at m' ep = some EmptyTileSingleton) ∧
    (nt.type = TileType.GOLD → ∃ m', enemy_move_phase m ep np = some m' ∧
      get_tile_at m' np =
        some { et with entity := some (Entity.enemy { ee with gold_drop_range :=
          (ee.gold_drop_range.1 + 1, ee.gold_drop_range.2 + 1) }) } ∧
      get_tile_at m' ep = some EmptyTileSingleton) ∧
    (nt.type = TileType.EMPTY → ∃ m', enemy_move_phase m ep np = some m' ∧
      get_tile_at m' np = some et ∧
      get_tile_at m' ep = some EmptyTileSingleton) ∧
    (nt.type ≠ TileType.KEY → nt.type ≠ TileType.GOLD → nt.type ≠ TileType.EMPTY →
      enemy_move_phase m ep np = some m) := by
  refine ⟨?_, ?_, ?_, ?_⟩
  · intro hkey
    obtain ⟨m', hrun, hnp', hep'⟩ :=
      enemy_move_phase_commit hu hep hnp hne hget hnt (Or.inl hkey)
    refine ⟨m', hrun, ?_, hep'⟩
    rw [hnp', hkey]
    have hng : TileType.KEY ≠ TileType.GOLD := by decide
    rw [if_neg hng, if_pos rfl]
    unfold tileStealKey
    rw [hent]
    rfl
  · intro hgold
    obtain ⟨m', hrun, hnp', hep'⟩ :=
      enemy_move_phase_commit hu hep hnp hne hget hnt (Or.inr (Or.inl hgold))
    refine ⟨m', hrun, ?_, hep'⟩
    rw [hnp', hgold]
    have hnk : TileType.GOLD ≠ TileType.KEY := by decide
    rw [if_pos rfl, if_neg hnk]
    unfold tileBumpGold
    rw [hent]
    rfl
  · intro hempty
    obtain ⟨m', hrun, hnp', hep'⟩ :=
      enemy_move_phase_commit hu hep hnp hne hget hnt (Or.inr (Or.inr hempty))
    refine ⟨m', hrun, ?_, hep'⟩
    rw [hnp', hempty]
    have h1 : TileType.EMPTY ≠ TileType.GOLD := by decide
    have h2 : TileType.EMPTY ≠ TileType.KEY := by decide
    rw [if_neg h1, if_neg h2]
  · intro hk hg he
    unfold enemy_move_phase
    rw [hget, someBind, hnt, someBind]
    rw [if_neg hk, set_tile_self hu hep hget, someBind]
    rw [if_neg hg, set_tile_self hu hep hget, someBind]
    rw [if_neg (by simp [hk, hg, he])]

/-- Witness for C3 on a concrete 2x1 grid: an enemy stepping onto a Key
tile steals the key and the move commits. -/
theorem enemy_step_effects_witness :
    ∃ m', enemy_move_phase
        ⟨⟨2, 1⟩, [], [[⟨TileType.ENEMY, some (Entity.enemy ⟨10, 10, (2, 5), false⟩)⟩,
          ⟨TileType.KEY, none⟩]]⟩ ⟨0, 0⟩ ⟨1, 0⟩ = some m' ∧
      get_tile_at m' ⟨1, 0⟩ =
        some ⟨TileType.ENEMY, some (Entity.enemy ⟨10, 10, (2, 5), true⟩)⟩ ∧
      get_tile_at m' ⟨0, 0⟩ = some EmptyTileSingleton :=
  (enemy_step_effects
    ⟨⟨2, 1⟩, [], [[⟨TileType.ENEMY, some (Entity.enemy ⟨10, 10, (2, 5), false⟩)⟩,
      ⟨TileType.KEY, none⟩]]⟩ 2 1 ⟨0, 0⟩ ⟨1, 0⟩
    ⟨TileType.ENEMY, some (Entity.enemy ⟨10, 10, (2, 5), false⟩)⟩ ⟨TileType.KEY, none⟩
    ⟨10, 10, (2, 5), false⟩
    (by constructor <;> simp)
    (by refine ⟨by norm_num, by norm_num, by norm_num, by norm_num⟩)
    (by refine ⟨by norm_num, by norm_num, by norm_num, by norm_num⟩)
    (by decide) (by rfl) (by rfl) (by rfl)).1 rfl

/-! ### C9: room placement never registers padded-overlapping rooms -/

theorem collides_true_comm {a b : Rect} {p : Int} (h : Rect.collides a b p = true) :
    Rect.collides b a p = true := by
  simp only [Rect.collides, Bool.and_eq_true, decide_eq_true_eq] at h ⊢
  omega

theorem collides_false_comm {a b : Rect} {p : Int} (h : Rect.collides a b p = false) :
    Rect.collides b a p = false := by
  cases hc : Rect.collides b a p
  · rfl
  · rw [collides_true_comm hc] at h
    cases h

theorem set_tile_rooms {m : GameMap} {p : Position} {t : Tile} {m' : GameMap}
    (h : set_tile m p t = some m') : m'.rooms = m.rooms := by
  simp only [set_tile, Option.bind_eq_some, Option.map_eq_some'] at h
  obtain ⟨row, -, row', -, st, -, hm⟩ := h
  rw [← hm]

theorem carve_rooms {m : GameMap} {p : Position} {m' : GameMap}
    (h : carve m p = some m') : m'.rooms = m.rooms := by
  simp only [carve, Option.bind_eq_some] at h
  obtain ⟨t, -, h⟩ := h
  by_cases hf : t.type = TileType.FILL
  · rw [if_pos hf] at h
    exact set_tile_rooms h
  · rw [if_neg hf] at h
    rw [← Option.some.inj h]

theorem foldlM_rooms_preserved {β : Type} (f : GameMap → β → Option GameMap)
    (hf : ∀ m b m', f m b = some m' → m'.rooms = m.rooms) :
    ∀ (l : List β) (m m' : GameMap), l.foldlM f m = some m' → m'.rooms = m.rooms := by
  intro l
  induction l with
  | nil =>
    intro m m' h
    rw [List.foldlM_nil] at h
    rw [← Option.some.inj h]
  | cons b bs ih =>
    intro m m' h
    rw [List.foldlM_cons] at h
    obtain ⟨m1, h1, h2⟩ := Option.bind_eq_some.mp h
    rw [ih m1 m' h2, hf m b m1 h1]

theorem update_rooms_rooms {m m' : GameMap} (h : update_rooms m = some m') :
    m'.rooms = m.rooms := by
  unfold update_rooms at h
  refine foldlM_rooms_preserved _ ?_ _ _ _ h
  intro m2 room m2' h2
  refine foldlM_rooms_preserved _ ?_ _ _ _ h2
  intro m3 dy m3' h3
  refine foldlM_rooms_preserved _ ?_ _ _ _ h3
  intro m4 dx m4' h4
  exact carve_rooms h4

/-- Full characterization of the registry change of one `_place_room`
call. -/
theorem place_room_rooms {m : GameMap} {pos : Position} {size : Size} {m' : GameMap}
    {ok : Bool} (h : place_room m pos size = some (m', ok)) :
    (ok = true ∧ m'.rooms = m.rooms ++ [⟨pos, size⟩] ∧
      (m.rooms = [] ∨ Rect.collidesList ⟨pos, size⟩ m.rooms = false)) ∨
    (ok = false ∧ m' = m ∧ m.rooms ≠ [] ∧
      Rect.collidesList ⟨pos, size⟩ m.rooms = true) := by
  unfold place_room at h
  by_cases hc : m.rooms ≠ [] ∧ Rect.collidesList ⟨pos, size⟩ m.rooms
  · rw [if_pos hc] at h
    have hm := Option.some.inj h
    right
    exact ⟨(congrArg Prod.snd hm).symm, (congrArg Prod.fst hm).symm, hc.1, hc.2⟩
  · rw [if_neg hc] at h
    obtain ⟨m'', hup, hpair⟩ := Option.map_eq_some'.mp h
    left
    have hok : ok = true := (congrArg Prod.snd hpair).symm
    have hm' : m' = m'' := (congrArg Prod.fst hpair).symm
    refine ⟨hok, ?_, ?_⟩
    · rw [hm', update_rooms_rooms hup]
    · by_cases hempty : m.rooms = []
      · exact Or.inl hempty
      · right
        cases hcol : Rect.collidesList ⟨pos, size⟩ m.rooms
        · rfl
        · exact absurd ⟨hempty, hcol⟩ hc

/-- `place_rooms_fold` plays a sequence of `_place_room` requests from a
given map state (the reachable registry states of the claim). -/
def place_rooms_fold (m : GameMap) (reqs : List (Position × Size)) : Option GameMap :=
  reqs.foldlM (fun acc req => (place_room acc req.1 req.2).map (fun p => p.1)) m

theorem place_room_keeps_pairwise {m : GameMap} {pos : Position} {size : Size}
    {m' : GameMap} {ok : Bool} (h : place_room m pos size = some (m', ok))
    (hpw : List.Pairwise (fun a b => Rect.collides a b 1 = false) m.rooms) :
    List.Pairwise (fun a b => Rect.collides a b 1 = false) m'.rooms := by
  rcases place_room_rooms h with ⟨-, hrooms, hfree⟩ | ⟨-, hm, -, -⟩
  · rw [hrooms]
    rw [List.pairwise_append]
    refine ⟨hpw, List.pairwise_singleton _ _, ?_⟩
    intro a ha b hb
    rw [List.mem_singleton] at hb
    subst hb
    rcases hfree with hempty | hfree
    · rw [hempty] at ha
      cases ha
    · apply collides_false_comm
      have hall : ∀ x ∈ m.rooms, ¬ (Rect.collides ⟨pos, size⟩ x 1 = true) :=
        List.any_eq_false.mp (by simpa [Rect.collidesList] using hfree)
      have hfa := hall a ha
      rwa [Bool.not_eq_true] at hfa
  · rw [hm]
    exact hpw

/-- C9: one `_place_room` call registers the candidate exactly when it does
not collide, padded by 1, with any already-registered room (an empty
registry accepts unconditionally, vacuously satisfying the same condition);
and every registry reachable by a sequence of calls from an empty registry
is pairwise non-colliding under the 1-cell padding. -/
theorem place_room_no_overlap :
    (∀ (m : GameMap) (pos : Position) (size : Size) (m' : GameMap) (ok : Bool),
      place_room m pos size = some (m', ok) →
      (ok = true ↔ ∀ r ∈ m.rooms, Rect.collides ⟨pos, size⟩ r 1 = false) ∧
      (ok = true → m'.rooms = m.rooms ++ [⟨pos, size⟩]) ∧
      (ok = false → m'.rooms = m.rooms)) ∧
    (∀ (m : GameMap) (reqs : List (Position × Size)) (m' : GameMap),
      m.rooms = [] → place_rooms_fold m reqs = some m' →
      List.Pairwise (fun a b => Rect.collides a b 1 = false) m'.rooms) := by
  constructor
  · intro m pos size m' ok h
    rcases place_room_rooms h with ⟨hok, hrooms, hfree⟩ | ⟨hok, hm, hne, hcol⟩
    · subst hok
      refine ⟨⟨fun _ => ?_, fun _ => rfl⟩, fun _ => hrooms,
        fun hcon => absurd hcon (by decide)⟩
      intro r hr
      rcases hfree with hempty | hfree
      · rw [hempty] at hr
        cases hr
      · have hall : ∀ x ∈ m.rooms, ¬ (Rect.collides ⟨pos, size⟩ x 1 = true) :=
          List.any_eq_false.mp (by simpa [Rect.collidesList] using hfree)
        have hfr := hall r hr
        rwa [Bool.not_eq_true] at hfr
    · subst hok
      refine ⟨⟨fun hcon => absurd hcon (by decide), fun hall => ?_⟩,
        fun hcon => absurd hcon (by decide), fun _ => by rw [hm]⟩
      exfalso
      obtain ⟨r, hr, hcolr⟩ := List.any_eq_true.mp hcol
      have hfr := hall r hr
      rw [hfr] at hcolr
      cases hcolr
  · intro m reqs m' hempty hrun
    have hstart : List.Pairwise (fun a b => Rect.collides a b 1 = false) m.rooms := by
      rw [hempty]
      exact List.Pairwise.nil
    clear hempty
    induction reqs generalizing m with
    | nil =>
      unfold place_rooms_fold at hrun
      rw [List.foldlM_nil] at hrun
      rw [← Option.some.inj hrun]
      exact hstart
    | cons req reqs ih =>
      unfold place_rooms_fold at hrun
      rw [List.foldlM_cons] at hrun
      obtain ⟨m1, h1, h2⟩ := Option.bind_eq_some.mp hrun
      obtain ⟨⟨m1', ok⟩, hpr, hm1⟩ := Option.map_eq_some'.mp h1
      have hm1' : m1 = m1' := by rw [← hm1]
      subst hm1'
      exact ih m1 h2 (place_room_keeps_pairwise hpr hstart)

/-- Witness for C9: a concrete request sequence on an 8x8 grid (the middle
request collides with the first and is rejected) reaches a pairwise
non-colliding registry. -/
theorem place_room_no_overlap_witness :
    ∃ m', place_rooms_fold (reset_state ⟨⟨8, 8⟩, [], []⟩)
        [(⟨1, 1⟩, ⟨2, 2⟩), (⟨2, 2⟩, ⟨2, 2⟩), (⟨5, 5⟩, ⟨2, 2⟩)] = some m' ∧
      List.Pairwise (fun a b => Rect.collides a b 1 = false) m'.rooms := by
  have hsome : (place_rooms_fold (reset_state ⟨⟨8, 8⟩, [], []⟩)
      [(⟨1, 1⟩, ⟨2, 2⟩), (⟨2, 2⟩, ⟨2, 2⟩), (⟨5, 5⟩, ⟨2, 2⟩)]).isSome = true := by decide
  obtain ⟨m', hm'⟩ := Option.isSome_iff_exists.mp hsome
  exact ⟨m', hm', place_room_no_overlap.2 _ _ m' rfl hm'⟩

/-! ### C5: deterministic battle under an all-player-attacks coin stream -/

theorem battleLoop_all_player (p : PlayerEntity) (hs : 0 < p.strength) :
    ∀ (N : Nat) (e : EnemyEntity), e.health.toNat ≤ N → 0 < p.health → 0 < e.health →
    ∃ n : Nat, 0 < n ∧
      (∀ k : Nat, k < n → 0 < e.health - (k : Int) * p.strength) ∧
      e.health - (n : Int) * p.strength ≤ 0 ∧
      ∀ fuel idx, n < fuel → battleLoop fuel (fun _ => true) idx p e =
        some (p, { e with health := e.health - (n : Int) * p.strength }) := by
  intro N
  induction N with
  | zero =>
    intro e hle hp he
    exfalso
    omega
  | succ N ih =>
    intro e hle hp he
    by_cases hdead : e.health - p.strength ≤ 0
    · refine ⟨1, by omega, ?_, by simpa using hdead, ?_⟩
      · intro k hk
        have hk0 : k = 0 := by omega
        subst hk0
        simpa using he
      · intro fuel idx hfuel
        match fuel, hfuel with
        | Nat.succ (Nat.succ f), _ =>
          show battleLoop (Nat.succ (Nat.succ f)) _ _ _ _ = _
          unfold battleLoop
          rw [if_pos ⟨hp, he⟩, if_pos rfl]
          unfold battleLoop
          have hcond : ¬ (0 < p.health ∧ 0 < (attackEnemy p e).health) := by
            intro hcon
            have : (attackEnemy p e).health = e.health - p.strength := rfl
            omega
          rw [if_neg hcond]
          have hh : (attackEnemy p e).health = e.health - (1 : Int) * p.strength := by
            show e.health - p.strength = _
            ring
          simp [attackEnemy]
    · push_neg at hdead
      have hN : (attackEnemy p e).health.toNat ≤ N := by
        have h1 : (attackEnemy p e).health = e.health - p.strength := rfl
        omega
      obtain ⟨n, hn0, hdec, hdone, hrun⟩ := ih (attackEnemy p e) hN hp hdead
      have hah : (attackEnemy p e).health = e.health - p.strength := rfl
      refine ⟨n + 1, by omega, ?_, ?_, ?_⟩
      · intro k hk
        cases k with
        | zero => simpa using he
        | succ k' =>
          have hd := hdec k' (by omega)
          rw [hah] at hd
          have hcast : ((k' + 1 : Nat) : Int) = (k' : Int) + 1 := by push_cast; ring
          rw [hcast]
          nlinarith [hd]
      · have hd := hdone
        rw [hah] at hd
        have hcast : ((n + 1 : Nat) : Int) = (n : Int) + 1 := by push_cast; ring
        rw [hcast]
        nlinarith [hd]
      · intro fuel idx hfuel
        match fuel, hfuel with
        | Nat.succ f, _ =>
          show battleLoop (Nat.succ f) _ _ _ _ = _
          unfold battleLoop
          rw [if_pos ⟨hp, he⟩, if_pos rfl]
          rw [hrun f (idx + 1) (by omega)]
          have hh : (attackEnemy p e).health - (n : Int) * p.strength =
              e.health - ((n + 1 : Nat) : Int) * p.strength := by
            rw [hah]
            push_cast
            ring
          rw [hh]
          rfl

/-- C5: when every coin flip selects the player as attacker, battle
resolution is deterministic — there is a round count `n ≥ 1` such that the
enemy's health is still positive before each earlier round and drops by
exactly the player's strength per round until it is ≤ 0 after round `n`;
with enough fuel the loop returns the player record unchanged (in
particular with its starting health) and, the enemy being defeated, the
player's gold increases by exactly the drop value, which lies inside the
enemy's gold-drop range. -/
theorem battle_all_player_attacks (p : PlayerEntity) (e : EnemyEntity) (dropR : Int)
    (hp : 0 < p.health) (he : 0 < e.health) (hs : 0 < p.strength)
    (hdrop : e.gold_drop_range.1 ≤ dropR ∧ dropR ≤ e.gold_drop_range.2) :
    ∃ n : Nat, 0 < n ∧
      (∀ k : Nat, k < n → 0 < e.health - (k : Int) * p.strength) ∧
      e.health - (n : Int) * p.strength ≤ 0 ∧
      ∀ fuel, n < fuel →
        resolve_battle fuel (fun _ => true) dropR p e =
          some
            ({ p with
                gold := p.gold + dropR
                keys := if e.stole_key then p.keys + 1 else p.keys },
             { e with health := e.health - (n : Int) * p.strength },
             if e.stole_key then BattleOutcome.keyRegen else BattleOutcome.enemyDown) := by
  obtain ⟨n, hn0, hdec, hdone, hrun⟩ :=
    battleLoop_all_player p hs e.health.toNat e (le_refl _) hp he
  refine ⟨n, hn0, hdec, hdone, ?_⟩
  intro fuel hfuel
  unfold resolve_battle
  rw [hrun fuel 0 hfuel]
  have hpal : ¬ ({ e with health := e.health - (n : Int) * p.strength} , p).2.health ≤ 0 := by
    simp
    omega
  simp only [Option.map_some']
  rw [if_neg (by simpa using hpal)]
  rw [if_pos (by simpa using hdone)]
  have hr : randint e.gold_drop_range.1 e.gold_drop_range.2 dropR = dropR := by
    unfold randint
    rw [if_pos hdrop]
  by_cases hkey : e.stole_key
  · simp [hkey, hr]
  · simp [hkey, hr]

/-- Witness for C5: player (health 100, strength 10) against enemy
(health 25, drop range [2,5], no stolen key) with drop value 3. -/
theorem battle_all_player_attacks_witness :
    ∃ n : Nat, 0 < n ∧
      (∀ k : Nat, k < n → 0 < (25 : Int) - (k : Int) * 10) ∧
      (25 : Int) - (n : Int) * 10 ≤ 0 ∧
      ∀ fuel, n < fuel →
        resolve_battle fuel (fun _ => true) 3 ⟨100, 10, 0, 7⟩ ⟨25, 10, (2, 5), false⟩ =
          some ({ health := 100, strength := 10, keys := 0, gold := 10 },
                { health := (25 : Int) - (n : Int) * 10, strength := 10,
                  gold_drop_range := (2, 5), stole_key := false },
                BattleOutcome.enemyDown) :=
  battle_all_player_attacks ⟨100, 10, 0, 7⟩ ⟨25, 10, (2, 5), false⟩ 3
    (by norm_num) (by norm_num) (by norm_num) (by constructor <;> norm_num)

/-! ### C10: battles mutate only entities, the grid mapping is untouched -/

/-- Two maps have identical shape and identical tile kinds at every cell
of the 2D array (entity payloads may differ). -/
def SameTypes (m m' : GameMap) : Prop :=
  m'.state.length = m.state.length ∧
  (∀ y : Nat, (m'.state[y]?).map List.length = (m.state[y]?).map List.length) ∧
  ∀ y x : Nat, ((m'.state[y]?).bind (fun row => row[x]?)).map Tile.type =
    ((m.state[y]?).bind (fun row => row[x]?)).map Tile.type

theorem sameTypes_refl (m : GameMap) : SameTypes m m :=
  ⟨rfl, fun _ => rfl, fun _ _ => rfl⟩

theorem sameTypes_trans {m1 m2 m3 : GameMap} (h12 : SameTypes m1 m2)
    (h23 : SameTypes m2 m3) : SameTypes m1 m3 :=
  ⟨h23.1.trans h12.1, fun y => (h23.2.1 y).trans (h12.2.1 y),
   fun y x => (h23.2.2 y x).trans (h12.2.2 y x)⟩

/-- A write whose tile has the same kind as the tile currently stored at
the written position preserves the kind of every cell. -/
theorem set_tile_sameTypes {m m' : GameMap} {p : Position} {t t0 : Tile}
    (hget : get_tile_at m p = some t0) (htype : t.type = t0.type)
    (h : set_tile m p t = some m') : SameTypes m m' := by
  simp only [set_tile, Option.bind_eq_some, Option.map_eq_some'] at h
  obtain ⟨row, hrow, row', hrow', st, hst, hm⟩ := h
  unfold pyGet at hrow
  obtain ⟨ky, hky, hrowky⟩ := Option.bind_eq_some.mp hrow
  unfold pySet at hrow' hst
  obtain ⟨kx, hkx, hrowkx⟩ := Option.map_eq_some'.mp hrow'
  rw [hky, Option.map_some'] at hst
  have hstval : st = m.state.set ky row' := (Option.some.inj hst).symm
  subst hstval
  have hrowx : row[kx]? = some t0 := by
    unfold get_tile_at pyGet at hget
    rw [hky, someBind, hrowky, someBind, hkx, someBind] at hget
    exact hget
  have hkylt : ky < m.state.length := by
    by_contra hge
    rw [List.getElem?_eq_none (by omega)] at hrowky
    cases hrowky
  have hkxlt : kx < row.length := by
    by_contra hge
    rw [List.getElem?_eq_none (by omega)] at hrowx
    cases hrowx
  subst hm
  have hrowval : m.state[ky] = row := by
    have hh := List.getElem?_eq_getElem hkylt
    rw [hh] at hrowky
    exact Option.some.inj hrowky
  refine ⟨by simp, ?_, ?_⟩
  · intro y
    show ((m.state.set ky row')[y]?).map List.length = (m.state[y]?).map List.length
    rw [List.getElem?_set]
    by_cases hy : ky = y
    · subst hy
      rw [if_pos rfl, if_pos hkylt, ← hrowkx]
      rw [List.getElem?_eq_getElem hkylt, hrowval]
      simp
    · rw [if_neg hy]
  · intro y x
    show (((m.state.set ky row')[y]?).bind (fun row => row[x]?)).map Tile.type =
      ((m.state[y]?).bind (fun row => row[x]?)).map Tile.type
    rw [List.getElem?_set]
    by_cases hy : ky = y
    · subst hy
      rw [if_pos rfl, if_pos hkylt, ← hrowkx]
      rw [List.getElem?_eq_getElem hkylt, hrowval, someBind, someBind]
      rw [List.getElem?_set]
      by_cases hx : kx = x
      · subst hx
        rw [if_pos rfl, if_pos hkxlt, hrowx]
        simp [htype]
      · rw [if_neg hx]
    · rw [if_neg hy]

/-- Cell-kind equality lifts through Python-indexed reads. -/
theorem get_tile_at_sameTypes {m m' : GameMap} (h : SameTypes m m') (q : Position) :
    (get_tile_at m' q).map Tile.type = (get_tile_at m q).map Tile.type := by
  obtain ⟨hlen, hrows, htypes⟩ := h
  unfold get_tile_at pyGet
  rw [hlen]
  cases hk : pyIdx m.state.length q.y with
  | none => rfl
  | some ky =>
    rw [someBind, someBind]
    have hlenk := hrows ky
    cases hrow' : m'.state[ky]? with
    | none =>
      rw [hrow'] at hlenk
      cases hrowm : m.state[ky]? with
      | none => rfl
      | some rowm =>
        rw [hrowm] at hlenk
        cases hlenk
    | some row' =>
      cases hrowm : m.state[ky]? with
      | none =>
        rw [hrow', hrowm] at hlenk
        cases hlenk
      | some rowm =>
        rw [hrow', hrowm] at hlenk
        have hleneq : row'.length = rowm.length := by
          simpa using hlenk
        rw [someBind, someBind, hleneq]
        cases hkx : pyIdx rowm.length q.x with
        | none => rfl
        | some kx =>
          rw [someBind, someBind]
          have ht := htypes ky kx
          rw [hrow', hrowm, someBind, someBind] at ht
          exact ht

/-- Cell-kind equality makes the row-major type scans coincide. -/
theorem find_tiles_sameTypes {m m' : GameMap} (h : SameTypes m m') (t : TileType) :
    find_tiles m' t = find_tiles m t := by
  obtain ⟨hlen, hrows, htypes⟩ := h
  unfold find_tiles
  rw [hlen]
  have hhead : (m'.state.headD []).length = (m.state.headD []).length := by
    have h0 := hrows 0
    have hh1 : m'.state.headD [] = (m'.state[0]?).getD [] := by
      cases m'.state <;> simp
    have hh2 : m.state.headD [] = (m.state[0]?).getD [] := by
      cases m.state <;> simp
    rw [hh1, hh2]
    cases hc1 : m'.state[0]? with
    | none =>
      rw [hc1] at h0
      cases hc2 : m.state[0]? with
      | none => rfl
      | some r2 => rw [hc2] at h0; cases h0
    | some r1 =>
      cases hc2 : m.state[0]? with
      | none => rw [hc1, hc2] at h0; cases h0
      | some r2 =>
        rw [hc1, hc2] at h0
        simpa using h0
  rw [hhead]
  apply congrArg (fun f => (List.range m.state.length).flatMap f)
  funext y
  apply congrArg (fun f => (List.range (m.state.headD []).length).filterMap f)
  funext x
  have ht := htypes y x
  cases hc1 : (m'.state[y]?).bind (fun row => row[x]?) with
  | none =>
    rw [hc1] at ht
    cases hc2 : (m.state[y]?).bind (fun row => row[x]?) with
    | none => rfl
    | some t2 => rw [hc2] at ht; cases ht
  | some t1 =>
    cases hc2 : (m.state[y]?).bind (fun row => row[x]?) with
    | none => rw [hc1, hc2] at ht; cases ht
    | some t2 =>
      rw [hc1, hc2] at ht
      have htt : t1.type = t2.type := by simpa using ht
      show (if t1.type = t then some (⟨(x : Int), (y : Int)⟩ : Position) else none) =
        (if t2.type = t then some (⟨(x : Int), (y : Int)⟩ : Position) else none)
      rw [htt]

/-- The battle loop never touches anything but the two health fields, and
it returns only once one of the combatants is down. -/
theorem battleLoop_inv :
    ∀ (fuel : Nat) (coins : Nat → Bool) (k : Nat) (p : PlayerEntity) (e : EnemyEntity)
      (p' : PlayerEntity) (e' : EnemyEntity),
      battleLoop fuel coins k p e = some (p', e') →
      e'.stole_key = e.stole_key ∧ e'.gold_drop_range = e.gold_drop_range ∧
      e'.strength = e.strength ∧ p'.strength = p.strength ∧ p'.gold = p.gold ∧
      p'.keys = p.keys ∧ ¬ (0 < p'.health ∧ 0 < e'.health) := by
  intro fuel
  induction fuel with
  | zero => intro coins k p e p' e' h; cases h
  | succ f ih =>
    intro coins k p e p' e' h
    unfold battleLoop at h
    by_cases hc : 0 < p.health ∧ 0 < e.health
    · rw [if_pos hc] at h
      by_cases hcoin : coins k
      · rw [if_pos hcoin] at h
        exact ih coins (k + 1) p (attackEnemy p e) p' e' h
      · rw [if_neg hcoin] at h
        exact ih coins (k + 1) (attackPlayer e p) e p' e' h
    · rw [if_neg hc] at h
      have hpair := Option.some.inj h
      have hp : p' = p := (congrArg Prod.fst hpair).symm
      have he : e' = e := (congrArg Prod.snd hpair).symm
      subst hp
      subst he
      exact ⟨rfl, rfl, rfl, rfl, rfl, rfl, hc⟩

/-- C10: a Battle event against an enemy whose stolen-key flag is false
mutates only entity fields: every cell keeps its tile kind (so no tile
moves and none is removed), the Pickup(Key) chain is never signalled, the
defeated enemy's tile is still an Enemy tile at its position — and when
the enemy died, a second Battle dispatched against the same (already dead)
enemy resolves immediately and awards the player the enemy's gold drop a
second time. -/
theorem battle_mutates_only_entities
    (m : GameMap) (w h : Nat) (fuel : Nat) (coins : Nat → Bool) (dropR : Int)
    (ppos epos : Position) (ptile etile : Tile) (pe : PlayerEntity) (ee : EnemyEntity)
    (m' : GameMap) (out : BattleOutcome)
    (hu : UniformGrid m w h)
    (hfind : (find_tiles m TileType.PLAYER).head? = some ppos)
    (hpin : InB w h ppos) (hein : InB w h epos)
    (hpt : get_tile_at m ppos = some ptile) (het : get_tile_at m epos = some etile)
    (hptype : ptile.type = TileType.PLAYER) (hetype : etile.type = TileType.ENEMY)
    (hpe : ptile.entity = some (Entity.player pe))
    (hee : etile.entity = some (Entity.enemy ee))
    (hkey : ee.stole_key = false)
    (hrun : handle_event_battle fuel coins dropR m epos = some (m', out)) :
    (∀ q : Position, (get_tile_at m' q).map Tile.type = (get_tile_at m q).map Tile.type) ∧
    out ≠ BattleOutcome.keyRegen ∧
    (get_tile_at m' epos).map Tile.type = some TileType.ENEMY ∧
    (out = BattleOutcome.enemyDown →
      ∃ (pe' : PlayerEntity) (ee' : EnemyEntity),
        get_tile_at m' ppos = some { ptile with entity := some (Entity.player pe') } ∧
        get_tile_at m' epos = some { etile with entity := some (Entity.enemy ee') } ∧
        ee'.health ≤ 0 ∧ ee'.stole_key = false ∧ 0 < pe'.health ∧
        ∀ (coins2 : Nat → Bool) (d2 : Int),
          ∃ m'', handle_event_battle 1 coins2 d2 m' epos =
              some (m'', BattleOutcome.enemyDown) ∧
            get_tile_at m'' ppos = some { ptile with entity := some (Entity.player
              { pe' with gold := (pe'.gold +
                randint ee'.gold_drop_range.1 ee'.gold_drop_range.2 d2) }) }) := by
  have hne : ppos ≠ epos := by
    intro heq
    rw [heq, het] at hpt
    have hteq := Option.some.inj hpt
    rw [← hteq] at hptype
    rw [hptype] at hetype
    cases hetype
  unfold handle_event_battle at hrun
  simp only [hfind] at hrun
  rw [hpt, someBind, het, someBind] at hrun
  simp only [hpe, hee] at hrun
  cases hres : resolve_battle fuel coins dropR pe ee with
  | none =>
    rw [hres, Option.none_bind] at hrun
    cases hrun
  | some res =>
    obtain ⟨pe1, ee1, out1⟩ := res
    rw [hres, someBind] at hrun
    obtain ⟨m1, hset1, hrun2⟩ := Option.bind_eq_some.mp hrun
    obtain ⟨m2, hset2, hpair⟩ := Option.map_eq_some'.mp hrun2
    have hm' : m' = m2 := (congrArg Prod.fst hpair).symm
    have hout : out = out1 := (congrArg Prod.snd hpair).symm
    subst hm'
    subst hout
    obtain ⟨m1', hset1', hsize1, hrooms1, hu1, hg1⟩ :=
      set_tile_spec hu hpin { ptile with entity := some (Entity.player pe1) }
    rw [hset1'] at hset1
    have hm1 : m1 = m1' := Option.some.inj hset1.symm
    subst hm1
    have hg1e : get_tile_at m1 epos = some etile := by
      rw [hg1 epos, if_neg (pyIdx_inb_ne hpin hein (Ne.symm hne)), het]
    obtain ⟨m2', hset2', hsize2, hrooms2, hu2, hg2⟩ :=
      set_tile_spec hu1 hein { etile with entity := some (Entity.enemy ee1) }
    rw [hset2'] at hset2
    have hm2 : m' = m2' := Option.some.inj hset2.symm
    subst hm2
    -- kind preservation
    have hst1 : SameTypes m m1 := set_tile_sameTypes hpt
      (show ({ ptile with entity := some (Entity.player pe1) } : Tile).type = ptile.type from rfl)
      hset1'
    have hst2 : SameTypes m1 m' := set_tile_sameTypes hg1e
      (show ({ etile with entity := some (Entity.enemy ee1) } : Tile).type = etile.type from rfl)
      hset2'
    have hst : SameTypes m m' := sameTypes_trans hst1 hst2
    have htypesq := get_tile_at_sameTypes hst
    -- the tiles of the result map
    have hg2p : get_tile_at m' ppos =
        some { ptile with entity := some (Entity.player pe1) } := by
      rw [hg2 ppos, if_neg (pyIdx_inb_ne hein hpin hne), hg1 ppos, if_pos ⟨rfl, rfl⟩]
    have hg2e : get_tile_at m' epos =
        some { etile with entity := some (Entity.enemy ee1) } := by
      rw [hg2 epos, if_pos ⟨rfl, rfl⟩]
    -- dissect the battle resolution
    unfold resolve_battle at hres
    obtain ⟨⟨pl, el⟩, hloop, hresf⟩ := Option.map_eq_some'.mp hres
    obtain ⟨hskey, hrange, -, -, -, -, hdown⟩ :=
      battleLoop_inv fuel coins 0 pe ee pl el hloop
    rw [hkey] at hskey
    have houtcases :
        (pe1 = pl ∧ ee1 = el ∧ out = BattleOutcome.gameOver ∧ pl.health ≤ 0) ∨
        (pe1 = { pl with gold := (pl.gold +
            randint el.gold_drop_range.1 el.gold_drop_range.2 dropR) } ∧
          ee1 = el ∧ out = BattleOutcome.enemyDown ∧ 0 < pl.health ∧ el.health ≤ 0) := by
      by_cases hpl : pl.health ≤ 0
      · left
        rw [if_pos hpl] at hresf
        exact ⟨(congrArg (fun t => t.1) hresf).symm,
          (congrArg (fun t => t.2.1) hresf).symm,
          (congrArg (fun t => t.2.2) hresf).symm, hpl⟩
      · right
        have hel : el.health ≤ 0 := by
          push_neg at hpl
          by_contra hcon
          push_neg at hcon
          exact hdown ⟨hpl, hcon⟩
        rw [if_neg hpl, if_pos hel, if_neg (by rw [hskey]; intro hcon; cases hcon)] at hresf
        push_neg at hpl
        exact ⟨(congrArg (fun t => t.1) hresf).symm,
          (congrArg (fun t => t.2.1) hresf).symm,
          (congrArg (fun t => t.2.2) hresf).symm, hpl, hel⟩
    refine ⟨htypesq, ?_, ?_, ?_⟩
    · rcases houtcases with ⟨-, -, hout1, -⟩ | ⟨-, -, hout1, -, -⟩ <;> rw [hout1] <;>
        intro hcon <;> cases hcon
    · rw [hg2e]
      simp
      exact hetype
    · intro hdownout
      rcases houtcases with ⟨-, -, hout1, -⟩ | ⟨hpe1, hee1, hout1, hplh, helh⟩
      · rw [hout1] at hdownout
        cases hdownout
      · refine ⟨pe1, ee1, hg2p, hg2e, by rw [hee1]; exact helh,
          by rw [hee1]; exact hskey, by rw [hpe1]; simpa using hplh, ?_⟩
        intro coins2 d2
        -- the player scan of the second call
        have hfind2 : (find_tiles m' TileType.PLAYER).head? = some ppos := by
          rw [find_tiles_sameTypes hst]
          exact hfind
        have hpe1h : 0 < pe1.health := by rw [hpe1]; simpa using hplh
        have hee1h : ee1.health ≤ 0 := by rw [hee1]; exact helh
        have hee1k : ee1.stole_key = false := by rw [hee1]; exact hskey
        have hres2 : resolve_battle 1 coins2 d2 pe1 ee1 =
            some ({ pe1 with gold := (pe1.gold +
                randint ee1.gold_drop_range.1 ee1.gold_drop_range.2 d2) }, ee1,
              BattleOutcome.enemyDown) := by
          unfold resolve_battle battleLoop
          rw [if_neg (by intro hcon; omega)]
          simp only [Option.map_some']
          rw [if_neg (by omega), if_pos hee1h,
            if_neg (by rw [hee1k]; intro hcon; cases hcon)]
        obtain ⟨m3, hset3, hsize3, hrooms3, hu3, hg3⟩ :=
          set_tile_spec hu2 hpin { ptile with entity := some (Entity.player
            { pe1 with gold := (pe1.gold +
              randint ee1.gold_drop_range.1 ee1.gold_drop_range.2 d2) }) }
        obtain ⟨m4, hset4, hsize4, hrooms4, hu4, hg4⟩ :=
          set_tile_spec hu3 hein { etile with entity := some (Entity.enemy ee1) }
        refine ⟨m4, ?_, ?_⟩
        · unfold handle_event_battle
          simp only [hfind2]
          rw [hg2p, someBind, hg2e, someBind]
          show (resolve_battle 1 coins2 d2 pe1 ee1).bind _ = _
          rw [hres2, someBind]
          rw [hset3, someBind]
          have hset4' : set_tile m3 epos { ({ etile with entity := some (Entity.enemy ee1) } : Tile) with
              entity := some (Entity.enemy ee1) } = some m4 := hset4
          rw [hset4', Option.map_some']
        · rw [hg4 ppos, if_neg (pyIdx_inb_ne hein hpin hne), hg3 ppos, if_pos ⟨rfl, rfl⟩]

/-- A 3x1 grid with the player at (0,0), an enemy at (1,0) and fill at
(2,0), before a battle. -/
def battleMapBefore : GameMap :=
  ⟨⟨3, 1⟩, [], [[⟨TileType.PLAYER, some (Entity.player ⟨100, 10, 0, 0⟩)⟩,
    ⟨TileType.ENEMY, some (Entity.enemy ⟨5, 10, (2, 5), false⟩)⟩, FillTileSingleton]]⟩

/-- The same grid after the battle: only entity fields changed. -/
def battleMapAfter : GameMap :=
  ⟨⟨3, 1⟩, [], [[⟨TileType.PLAYER, some (Entity.player ⟨100, 10, 0, 2⟩)⟩,
    ⟨TileType.ENEMY, some (Entity.enemy ⟨-5, 10, (2, 5), false⟩)⟩, FillTileSingleton]]⟩

/-- Witness for C10: on the concrete battle above (all-player-attack coins,
drop value 2) the defeated enemy's tile is still an Enemy tile. -/
theorem battle_mutates_only_entities_witness :
    (get_tile_at battleMapAfter ⟨1, 0⟩).map Tile.type = some TileType.ENEMY :=
  (battle_mutates_only_entities battleMapBefore 3 1 3 (fun _ => true) 2
    ⟨0, 0⟩ ⟨1, 0⟩
    ⟨TileType.PLAYER, some (Entity.player ⟨100, 10, 0, 0⟩)⟩
    ⟨TileType.ENEMY, some (Entity.enemy ⟨5, 10, (2, 5), false⟩)⟩
    ⟨100, 10, 0, 0⟩ ⟨5, 10, (2, 5), false⟩ battleMapAfter BattleOutcome.enemyDown
    (by constructor
        · rfl
        · intro row hrow
          simp [battleMapBefore] at hrow
          rw [hrow]
          rfl)
    (by rfl) (by refine ⟨by norm_num, by norm_num, by norm_num, by norm_num⟩)
    (by refine ⟨by norm_num, by norm_num, by norm_num, by norm_num⟩)
    (by rfl) (by rfl) (by rfl) (by rfl) (by rfl) (by rfl) (by rfl) (by rfl)).2.2.1

/-! ### C2: the corridor carver does not connect the rooms -/

/-- Four-neighbour adjacency of grid positions. -/
def adjacentPos (p q : Position) : Prop :=
  (p.x = q.x ∧ (p.y + 1 = q.y ∨ q.y + 1 = p.y)) ∨
  (p.y = q.y ∧ (p.x + 1 = q.x ∨ q.x + 1 = p.x))

/-- Membership of a position in a room's rectangle. -/
def inRect (r : Rect) (p : Position) : Prop :=
  r.position.x ≤ p.x ∧ p.x < r.position.x + r.size.w ∧
  r.position.y ≤ p.y ∧ p.y < r.position.y + r.size.h

/-- The cell at `p` is carved (an Empty tile). -/
def isEmptyAt (m : GameMap) (p : Position) : Prop :=
  (get_tile_at m p).map Tile.type = some TileType.EMPTY

/-- A contiguous carved single-width path from room `a` to room `b`:
a nonempty chain of 4-adjacent positions, all Empty, starting in `a` and
ending in `b`. -/
def isCorridorPath (m : GameMap) (a b : Rect) (l : List Position) : Prop :=
  (∃ p0, l.head? = some p0 ∧ inRect a p0) ∧
  (∃ pn, l.getLast? = some pn ∧ inRect b pn) ∧
  List.Chain' adjacentPos l ∧
  ∀ p ∈ l, isEmptyAt m p

theorem adjacent_y_step {p q : Position} (h : adjacentPos p q) : q.y ≤ p.y + 1 := by
  rcases h with ⟨-, h | h⟩ | ⟨h, -⟩ <;> omega

/-- Discrete intermediate-value property: a 4-adjacent chain from a
position at or above the cut row to one at or below it meets the cut
row. -/
theorem path_crosses_row (yc : Int) :
    ∀ (l : List Position) (p0 pn : Position),
      l.head? = some p0 → l.getLast? = some pn →
      List.Chain' adjacentPos l → p0.y ≤ yc → yc ≤ pn.y →
      ∃ q ∈ l, q.y = yc := by
  intro l
  induction l with
  | nil =>
    intro p0 pn hh _ _ _ _
    cases hh
  | cons a l ih =>
    intro p0 pn hh hl hchain h0 hn
    have hp0 : p0 = a := (Option.some.inj hh).symm
    subst hp0
    by_cases hay : p0.y = yc
    · exact ⟨p0, List.mem_cons_self _ _, hay⟩
    · have hlt : p0.y < yc := lt_of_le_of_ne h0 hay
      cases l with
      | nil =>
        have hpn : pn = p0 := (Option.some.inj hl).symm
        subst hpn
        omega
      | cons b l' =>
        have hadj : adjacentPos p0 b := (List.chain'_cons.mp hchain).1
        have hchain' : List.Chain' adjacentPos (b :: l') := (List.chain'_cons.mp hchain).2
        have hstep := adjacent_y_step hadj
        have hl' : (b :: l').getLast? = some pn := by
          rw [← hl]
          rw [List.getLast?_cons_cons]
        obtain ⟨q, hq, hqy⟩ := ih b pn rfl hl' hchain' (by omega) hn
        exact ⟨q, List.mem_cons_of_mem _ hq, hqy⟩

/-- The state of the C2 scenario before corridor carving: a 10x12 grid
with two accepted rooms far apart on both axes. -/
def corridorDemoRooms : Option GameMap :=
  (place_room (reset_state ⟨⟨10, 12⟩, [], []⟩) ⟨1, 1⟩ ⟨2, 2⟩).bind (fun p =>
    (place_room p.1 ⟨6, 8⟩ ⟨2, 2⟩).map (fun q => q.1))

/-- Fixed random choices, all inside the documented ranges: direction 0
(vertical), meeting row 5, both entry offsets 0 — the same draws again on
the repeated pass over the pair. -/
def corridorDemoRng : Rng := fun k => [0, 5, 0, 0, 0, 5, 0, 0].getD k 0

/-- One full run of the corridor carver on the two-room registry, with a
render callback that never signals abort. -/
def corridorDemoRun : Option GameMap :=
  corridorDemoRooms.bind (fun g => generate_corridors g corridorDemoRng 0 (fun _ => 0) 0)

/-- The resulting grid of the C2 scenario. -/
def corridorDemoMap : GameMap := corridorDemoRun.getD ⟨⟨0, 0⟩, [], []⟩

def roomA : Rect := ⟨⟨1, 1⟩, ⟨2, 2⟩⟩

def roomB : Rect := ⟨⟨6, 8⟩, ⟨2, 2⟩⟩

theorem corridorDemo_row5_fill : ∀ q : Position, q.y = 5 → ¬ isEmptyAt corridorDemoMap q := by
  intro q hqy hemp
  unfold isEmptyAt get_tile_at at hemp
  rw [hqy] at hemp
  have hrow : pyGet corridorDemoMap.state (5 : Int) =
      some (List.replicate 10 FillTileSingleton) := by decide
  rw [hrow, someBind] at hemp
  obtain ⟨t, hgt, htype⟩ := Option.map_eq_some'.mp hemp
  have hmem := pyGet_mem hgt
  have ht : t = FillTileSingleton := List.eq_of_mem_replicate hmem
  rw [ht] at htype
  cases htype

/-- C2 counterexample: the two rooms are separated on both axes and the
carver runs to completion with no abort signal, yet NO contiguous carved
path connects them — the vertical stubs carved from each room stop one
cell short of the meeting row 5, which stays entirely Fill, and any
4-adjacent path from room A (rows 1-2) to room B (rows 8-9) would have to
cross that row. -/
theorem corridor_carver_disconnected :
    (roomA.position.y + roomA.size.h < roomB.position.y) ∧
    (roomA.position.x + roomA.size.w < roomB.position.x) ∧
    corridorDemoRun = some corridorDemoMap ∧
    ¬ ∃ l, isCorridorPath corridorDemoMap roomA roomB l := by
  refine ⟨by decide, by decide, by decide, ?_⟩
  rintro ⟨l, ⟨p0, hh, hA⟩, ⟨pn, hl, hB⟩, hchain, hemp⟩
  obtain ⟨hx0, hx1, hy0, hy1⟩ := hA
  obtain ⟨hx0', hx1', hy0', hy1'⟩ := hB
  have hcross := path_crosses_row 5 l p0 pn hh hl hchain
    (by simp [roomA] at hy0 hy1; omega)
    (by simp [roomB] at hy0' hy1'; omega)
  obtain ⟨q, hq, hqy⟩ := hcross
  exact corridorDemo_row5_fill q hqy (hemp q hq)

theorem randint_mem {lo hi r : Int} (h : lo ≤ hi) :
    lo ≤ randint lo hi r ∧ randint lo hi r ≤ hi := by
  unfold randint
  by_cases hc : lo ≤ r ∧ r ≤ hi
  · rw [if_pos hc]
    exact ⟨hc.1, hc.2⟩
  · rw [if_neg hc]
    exact ⟨le_refl lo, h⟩

theorem pyIdx_inb_iff {n : Nat} {i j : Int} (hi0 : 0 ≤ i) (hi1 : i < (n : Int))
    (hj0 : 0 ≤ j) (hj1 : j < (n : Int)) : pyIdx n i = pyIdx n j ↔ i = j := by
  rw [pyIdx_inb hi0 hi1, pyIdx_inb hj0 hj1]
  constructor
  · intro hh
    have := Option.some.inj hh
    omega
  · intro hh
    rw [hh]

/-- One `_carve` call on an in-bounds position: the cell becomes Empty
exactly when it was Fill, every other cell is untouched. -/
theorem carve_spec {m : GameMap} {w h : Nat} (hu : UniformGrid m w h) {p : Position}
    (hp : InB w h p) {t : Tile} (hget : get_tile_at m p = some t) :
    ∃ m', carve m p = some m' ∧ UniformGrid m' w h ∧
      ∀ q : Position, InB w h q → ∀ tq : Tile, get_tile_at m q = some tq →
        get_tile_at m' q =
          if q.x = p.x ∧ q.y = p.y ∧ t.type = TileType.FILL
          then some EmptyTileSingleton else some tq := by
  by_cases hfill : t.type = TileType.FILL
  · obtain ⟨m', hset, hsize, hrooms, hu', hg⟩ := set_tile_spec hu hp EmptyTileSingleton
    refine ⟨m', ?_, hu', ?_⟩
    · unfold carve
      rw [hget, someBind, if_pos hfill, hset]
    · intro q hq tq hgetq
      rw [hg q]
      obtain ⟨hpx0, hpx1, hpy0, hpy1⟩ := hp
      obtain ⟨hqx0, hqx1, hqy0, hqy1⟩ := hq
      have hiffy := pyIdx_inb_iff hqy0 hqy1 hpy0 hpy1
      have hiffx := pyIdx_inb_iff hqx0 hqx1 hpx0 hpx1
      by_cases hsame : q.x = p.x ∧ q.y = p.y
      · rw [if_pos ⟨hiffy.mpr hsame.2, hiffx.mpr hsame.1⟩,
          if_pos ⟨hsame.1, hsame.2, hfill⟩]
      · rw [if_neg (by
            rintro ⟨hcy, hcx⟩
            exact hsame ⟨hiffx.mp hcx, hiffy.mp hcy⟩),
          if_neg (by
            rintro ⟨hcx, hcy, -⟩
            exact hsame ⟨hcx, hcy⟩), hgetq]
  · refine ⟨m, ?_, hu, ?_⟩
    · unfold carve
      rw [hget, someBind, if_neg hfill]
    · intro q hq tq hgetq
      rw [if_neg (by rintro ⟨-, -, hcon⟩; exact hfill hcon), hgetq]

/-- The descending-row carve loop carves exactly the Fill cells of the
column segment `[y0, y0 + n)`. -/
theorem carve_down_spec (w h : Nat) (x : Int) (hx : 0 ≤ x ∧ x < (w : Int)) :
    ∀ (n : Nat) (m : GameMap) (y0 : Int), UniformGrid m w h →
      0 ≤ y0 → y0 + (n : Int) ≤ (h : Int) →
      ∃ m', carve_down m x y0 n = some m' ∧ UniformGrid m' w h ∧
        ∀ q : Position, InB w h q → ∀ tq : Tile, get_tile_at m q = some tq →
          get_tile_at m' q =
            if q.x = x ∧ y0 ≤ q.y ∧ q.y < y0 + (n : Int) ∧ tq.type = TileType.FILL
            then some EmptyTileSingleton else some tq := by
  intro n
  induction n with
  | zero =>
    intro m y0 hu h0 h1
    refine ⟨m, rfl, hu, ?_⟩
    intro q hq tq hgetq
    rw [if_neg (by rintro ⟨-, hc1, hc2, -⟩; omega), hgetq]
  | succ n ih =>
    intro m y0 hu h0 h1
    have hpin : InB w h ⟨x, y0⟩ := ⟨hx.1, hx.2, h0, by push_cast at h1 ⊢; omega⟩
    obtain ⟨t0, hget0⟩ := get_tile_at_inb hu hpin
    obtain ⟨m1, hcarve, hu1, hchar1⟩ := carve_spec hu hpin hget0
    obtain ⟨m2, hrun2, hu2, hchar2⟩ := ih m1 (y0 + 1) hu1 (by omega)
      (by push_cast at h1 ⊢; omega)
    refine ⟨m2, ?_, hu2, ?_⟩
    · show (carve m ⟨x, y0⟩).bind (fun m' => carve_down m' x (y0 + 1) n) = some m2
      rw [hcarve, someBind, hrun2]
    · intro q hq tq hgetq
      have h1q := hchar1 q hq tq hgetq
      by_cases hsame : q.x = x ∧ q.y = y0
      · have hqp : q = ⟨x, y0⟩ := by
          cases q
          simp only [Position.mk.injEq]
          exact ⟨hsame.1, hsame.2⟩
        have htq0 : tq = t0 := by
          rw [hqp] at hgetq
          rw [hgetq] at hget0
          exact Option.some.inj hget0.symm |>.symm
        by_cases hfill : tq.type = TileType.FILL
        · have hm1q : get_tile_at m1 q = some EmptyTileSingleton := by
            rw [h1q, if_pos ⟨hsame.1, hsame.2, by rw [← htq0]; exact hfill⟩]
          have h2q := hchar2 q hq EmptyTileSingleton hm1q
          rw [h2q, if_neg (by rintro ⟨-, -, -, hcon⟩; cases hcon),
            if_pos ⟨hsame.1, by omega, by push_cast; omega, hfill⟩]
        · have hm1q : get_tile_at m1 q = some tq := by
            rw [h1q, if_neg (by rintro ⟨-, -, hcon⟩; rw [htq0] at hfill; exact hfill hcon)]
          have h2q := hchar2 q hq tq hm1q
          rw [h2q, if_neg (by rintro ⟨-, hc, -, -⟩; omega),
            if_neg (by rintro ⟨-, -, -, hcon⟩; exact hfill hcon)]
      · have hm1q : get_tile_at m1 q = some tq := by
          rw [h1q, if_neg (by rintro ⟨hc1, hc2, -⟩; exact hsame ⟨hc1, hc2⟩)]
        have h2q := hchar2 q hq tq hm1q
        rw [h2q]
        by_cases hc : q.x = x ∧ y0 + 1 ≤ q.y ∧ q.y < y0 + 1 + (n : Int) ∧
            tq.type = TileType.FILL
        · rw [if_pos hc, if_pos ⟨hc.1, by omega, by push_cast; omega, hc.2.2.2⟩]
        · rw [if_neg hc, if_neg (by
            rintro ⟨hd1, hd2, hd3, hd4⟩
            apply hc
            have hyne : q.y ≠ y0 := by
              intro hcon
              exact hsame ⟨hd1, hcon⟩
            exact ⟨hd1, by omega, by push_cast at hd3 ⊢; omega, hd4⟩)]

/-- The ascending-source carve loop carves exactly the Fill cells of the
column segment `(y0 - n, y0]`. -/
theorem carve_up_spec (w h : Nat) (x : Int) (hx : 0 ≤ x ∧ x < (w : Int)) :
    ∀ (n : Nat) (m : GameMap) (y0 : Int), UniformGrid m w h →
      0 ≤ y0 - (n : Int) → y0 < (h : Int) →
      ∃ m', carve_up m x y0 n = some m' ∧ UniformGrid m' w h ∧
        ∀ q : Position, InB w h q → ∀ tq : Tile, get_tile_at m q = some tq →
          get_tile_at m' q =
            if q.x = x ∧ y0 - (n : Int) < q.y ∧ q.y ≤ y0 ∧ tq.type = TileType.FILL
            then some EmptyTileSingleton else some tq := by
  intro n
  induction n with
  | zero =>
    intro m y0 hu h0 h1
    refine ⟨m, rfl, hu, ?_⟩
    intro q hq tq hgetq
    rw [if_neg (by rintro ⟨-, hc1, hc2, -⟩; omega), hgetq]
  | succ n ih =>
    intro m y0 hu h0 h1
    have hpin : InB w h ⟨x, y0⟩ := ⟨hx.1, hx.2, by push_cast at h0 ⊢; omega, h1⟩
    obtain ⟨t0, hget0⟩ := get_tile_at_inb hu hpin
    obtain ⟨m1, hcarve, hu1, hchar1⟩ := carve_spec hu hpin hget0
    obtain ⟨m2, hrun2, hu2, hchar2⟩ := ih m1 (y0 - 1) hu1
      (by push_cast at h0 ⊢; omega) (by omega)
    refine ⟨m2, ?_, hu2, ?_⟩
    · show (carve m ⟨x, y0⟩).bind (fun m' => carve_up m' x (y0 - 1) n) = some m2
      rw [hcarve, someBind, hrun2]
    · intro q hq tq hgetq
      have h1q := hchar1 q hq tq hgetq
      by_cases hsame : q.x = x ∧ q.y = y0
      · have htq0 : tq = t0 := by
          have hqp : q = ⟨x, y0⟩ := by
            cases q
            simp only [Position.mk.injEq]
            exact ⟨hsame.1, hsame.2⟩
          rw [hqp] at hgetq
          rw [hgetq] at hget0
          exact Option.some.inj hget0.symm |>.symm
        by_cases hfill : tq.type = TileType.FILL
        · have hm1q : get_tile_at m1 q = some EmptyTileSingleton := by
            rw [h1q, if_pos ⟨hsame.1, hsame.2, by rw [← htq0]; exact hfill⟩]
          have h2q := hchar2 q hq EmptyTileSingleton hm1q
          rw [h2q, if_neg (by rintro ⟨-, -, -, hcon⟩; cases hcon),
            if_pos ⟨hsame.1, by push_cast; omega, by omega, hfill⟩]
        · have hm1q : get_tile_at m1 q = some tq := by
            rw [h1q, if_neg (by rintro ⟨-, -, hcon⟩; rw [htq0] at hfill; exact hfill hcon)]
          have h2q := hchar2 q hq tq hm1q
          rw [h2q, if_neg (by rintro ⟨-, -, hc, -⟩; omega),
            if_neg (by rintro ⟨-, -, -, hcon⟩; exact hfill hcon)]
      · have hm1q : get_tile_at m1 q = some tq := by
          rw [h1q, if_neg (by rintro ⟨hc1, hc2, -⟩; exact hsame ⟨hc1, hc2⟩)]
        have h2q := hchar2 q hq tq hm1q
        rw [h2q]
        by_cases hc : q.x = x ∧ (y0 - 1) - (n : Int) < q.y ∧ q.y ≤ y0 - 1 ∧
            tq.type = TileType.FILL
        · rw [if_pos hc, if_pos ⟨hc.1, by push_cast at hc ⊢; omega, by omega, hc.2.2.2⟩]
        · rw [if_neg hc, if_neg (by
            rintro ⟨hd1, hd2, hd3, hd4⟩
            apply hc
            have hyne : q.y ≠ y0 := by
              intro hcon
              exact hsame ⟨hd1, hcon⟩
            exact ⟨hd1, by push_cast at hd2 ⊢; omega, by omega, hd4⟩)]

/-- C2 amended: one run of the vertical corridor branch on a pair of rooms
separated on the y axis (room `a` above room `b`), with any oracle values,
draws a meeting row `y` with `a.y + a.h ≤ y ≤ b.y` and carves exactly two
single-width straight stubs: the Fill cells of column `ax` in rows
`[a.y + a.h, y)` and of column `bx` in rows `(y, b.y]`.  Every other cell —
in particular the whole meeting row `y` — is unchanged, so the carved stubs
stop one cell short of the meeting row from both sides and need not form a
connected path between the rooms (the counterexample exhibits a run with no
connecting path at all). -/
theorem corridor_vertical_stub_spec (m : GameMap) (w h : Nat) (a b : Rect) (r : Rng)
    (k : Nat) (hu : UniformGrid m w h)
    (hsep : a.position.y + a.size.h < b.position.y)
    (hah : 0 ≤ a.size.h)
    (hy0 : 0 ≤ a.position.y + a.size.h) (hyh : b.position.y < (h : Int))
    (hax : 0 ≤ a.position.x + randint 0 a.size.w (r (k + 1)) ∧
      a.position.x + randint 0 a.size.w (r (k + 1)) < (w : Int))
    (hbx : 0 ≤ b.position.x + randint 0 b.size.w (r (k + 2)) ∧
      b.position.x + randint 0 b.size.w (r (k + 2)) < (w : Int)) :
    ∃ m', carve_vertical m a b r k = some (m', k + 3) ∧
      (a.position.y + a.size.h ≤ randint (a.position.y + a.size.h) b.position.y (r k) ∧
        randint (a.position.y + a.size.h) b.position.y (r k) ≤ b.position.y) ∧
      ∀ q : Position, InB w h q → ∀ tq : Tile, get_tile_at m q = some tq →
        get_tile_at m' q =
          if (q.x = a.position.x + randint 0 a.size.w (r (k + 1)) ∧
                a.position.y + a.size.h ≤ q.y ∧
                q.y < randint (a.position.y + a.size.h) b.position.y (r k) ∧
                tq.type = TileType.FILL) ∨
              (q.x = b.position.x + randint 0 b.size.w (r (k + 2)) ∧
                randint (a.position.y + a.size.h) b.position.y (r k) < q.y ∧
                q.y ≤ b.position.y ∧ tq.type = TileType.FILL)
          then some EmptyTileSingleton else some tq := by
  have hnoswap : ¬ a.position.y > b.position.y := by omega
  set lo : Int := a.position.y + a.size.h with hlo
  set y : Int := randint lo b.position.y (r k) with hy
  set ax : Int := a.position.x + randint 0 a.size.w (r (k + 1)) with haxd
  set bx : Int := b.position.x + randint 0 b.size.w (r (k + 2)) with hbxd
  have hybounds : lo ≤ y ∧ y ≤ b.position.y := randint_mem (le_of_lt hsep)
  have hcv : carve_vertical m a b r k =
      (carve_down m ax lo ((y - lo).toNat)).bind (fun m1 =>
        (carve_up m1 bx b.position.y ((b.position.y - y).toNat)).map
          (fun m2 => (m2, k + 3))) := by
    unfold carve_vertical
    rw [if_neg hnoswap]
  have hnA : lo + (((y - lo).toNat : Nat) : Int) = y := by omega
  have hnB : b.position.y - (((b.position.y - y).toNat : Nat) : Int) = y := by omega
  obtain ⟨m1, hrun1, hu1, hchar1⟩ := carve_down_spec w h ax hax ((y - lo).toNat) m lo hu
    hy0 (by omega)
  obtain ⟨m2, hrun2, hu2, hchar2⟩ := carve_up_spec w h bx hbx ((b.position.y - y).toNat)
    m1 b.position.y hu1 (by omega) hyh
  refine ⟨m2, ?_, hybounds, ?_⟩
  · rw [hcv, hrun1, someBind, hrun2, Option.map_some']
  · intro q hq tq hgetq
    have hd := hchar1 q hq tq hgetq
    rw [hnA] at hd
    by_cases hc1 : q.x = ax ∧ lo ≤ q.y ∧ q.y < y ∧ tq.type = TileType.FILL
    · rw [if_pos hc1] at hd
      have h2 := hchar2 q hq EmptyTileSingleton hd
      rw [hnB] at h2
      rw [h2, if_neg (by rintro ⟨-, -, -, hcon⟩; cases hcon), if_pos (Or.inl hc1)]
    · rw [if_neg hc1] at hd
      have h2 := hchar2 q hq tq hd
      rw [hnB] at h2
      rw [h2]
      by_cases hc2 : q.x = bx ∧ y < q.y ∧ q.y ≤ b.position.y ∧ tq.type = TileType.FILL
      · rw [if_pos hc2, if_pos (Or.inr hc2)]
      · rw [if_neg hc2, if_neg (by rintro (hcon | hcon); exacts [hc1 hcon, hc2 hcon])]

/-- The (map, counter) pair of the concrete stub-carving run used as
witness: an all-Fill 10x12 grid, the two demo rooms, meeting row 5 and
both entry offsets 0. -/
def stubDemoPair : GameMap × Nat :=
  (carve_vertical (reset_state ⟨⟨10, 12⟩, [], []⟩) roomA roomB
    (fun k => [5, 0, 0].getD k 0) 0).getD (⟨⟨0, 0⟩, [], []⟩, 0)

/-- Witness for C2 amended: in the concrete run the stub cell (1,3) is
carved to Empty while the meeting-row cell (1,5) stays Fill. -/
theorem corridor_vertical_stub_spec_witness :
    get_tile_at stubDemoPair.1 ⟨1, 3⟩ = some EmptyTileSingleton ∧
    get_tile_at stubDemoPair.1 ⟨1, 5⟩ = some FillTileSingleton := by
  obtain ⟨m', hrun, hyb, hchar⟩ := corridor_vertical_stub_spec
    (reset_state ⟨⟨10, 12⟩, [], []⟩) 10 12 roomA roomB (fun k => [5, 0, 0].getD k 0) 0
    (by constructor
        · rfl
        · intro row hrow
          have hr := List.eq_of_mem_replicate hrow
          rw [hr]
          rfl)
    (by decide) (by decide) (by decide) (by decide) (by decide) (by decide)
  have hm : stubDemoPair.1 = m' := by
    unfold stubDemoPair
    rw [hrun]
    rfl
  rw [hm]
  constructor
  · rw [hchar ⟨1, 3⟩ (by refine ⟨by norm_num, by norm_num, by norm_num, by norm_num⟩)
      FillTileSingleton (by decide), if_pos (by decide)]
  · rw [hchar ⟨1, 5⟩ (by refine ⟨by norm_num, by norm_num, by norm_num, by norm_num⟩)
      FillTileSingleton (by decide), if_neg (by decide)]

end Roguelike
